import Mathlib

/-!
# Verification of the Galadriel.CSS alchemy transformation core

Shallow embedding of the Babel-plugin transformation core of Galadriel.CSS
(`src/alchemy.js`), its configuration parser (`src/scripts/parseConfig.js`)
and the build-time exclusion filter (`assembleApplicationStyles`), together
with proofs of the specified properties.

JavaScript objects mutated in place are modelled as immutable values that
are rebuilt by each transformation step; `lodash.cloneDeep` is therefore the
identity on values (a deep copy is structurally equal to its source and,
in value semantics, *is* the value).
-/

namespace Galadriel

/-! ## String helpers (JS primitive operations used by the source) -/

/-- JS `hay.includes(needle)`: substring test, `true` on the empty needle. -/
def strContains (hay needle : String) : Bool :=
  decide (needle.toList <:+: hay.toList)

/-- `pre.isPrefixOf s` written via `String.take`, JS `startsWith`. -/
def strStarts (s pre : String) : Bool :=
  s.take pre.length == pre

/-- JS `endsWith`, written via `String.takeRight`. -/
def strEnds (s suf : String) : Bool :=
  s.takeRight suf.length == suf

/-- JS `s.replaceAll('"', "'")` from `src/alchemy.js`: the pattern is the
single character `"`, so the replacement is a character-wise map. -/
def doubleToSingleQuotes (s : String) : String :=
  String.mk (s.toList.map (fun c => if c = '"' then '\'' else c))

/-- JS `s.replace(/\s+/g, "")` (line 193 of `src/alchemy.js`): every
whitespace character is removed. -/
def removeWhitespace (s : String) : String :=
  String.mk (s.toList.filter (fun c => !c.isWhitespace))

/-- One hexadecimal digit. -/
def hexDigit (n : Nat) : Char :=
  if n < 10 then Char.ofNat (48 + n) else Char.ofNat (87 + n)

/-- Fixed-width 8-hex-digit rendering of a 32-bit number. -/
def toHex8 (n : Nat) : String :=
  String.mk ((List.range 8).map (fun i => hexDigit (n / 16 ^ (7 - i) % 16)))

/-- Modelled from the spec: `generatesHashingHex` is implemented in the
native (Rust) module behind `index.js` and is absent from the JavaScript
sources; §4.3 of the spec requires only a short, deterministic,
non-cryptographic digest of the input string.  We model it as a concrete
deterministic 32-bit polynomial hash rendered as eight hex characters; the
two boolean flags are carried but, as in any deterministic digest, do not
affect determinism. -/
def generatesHashingHex (s : String) (isObject isConfig : Bool) : String :=
  toHex8 ((s.toList.foldl (fun h c => (h * 31 + c.toNat) % 2 ^ 32)
    (5381 + (if isObject then 1 else 0) + (if isConfig then 2 else 0))) % 2 ^ 32)

/-- JSON escaping of a single character, as performed by `JSON.stringify`
on the characters of a string. -/
def jsonEscapeChar (c : Char) : String :=
  if c = '"' then "\\\""
  else if c = '\\' then "\\\\"
  else if c = '\n' then "\\n"
  else if c = '\t' then "\\t"
  else if c = '\r' then "\\r"
  else if c = '\x08' then "\\b"
  else if c = '\x0c' then "\\f"
  else if c.toNat < 32 then "\\u00" ++ String.mk [hexDigit (c.toNat / 16), hexDigit (c.toNat % 16)]
  else String.singleton c

/-- JS `JSON.stringify` applied to a string value: double quotes around the
escaped characters. -/
def jsonStringify (s : String) : String :=
  "\"" ++ String.join (s.toList.map jsonEscapeChar) ++ "\""

/-! ## The syntax-node model

A tagged tree mirroring the Babel AST shapes that `src/alchemy.js`
inspects.  `objectExpr` is an `ObjectExpression` with its ordered property
sequence; `stringLit` a `StringLiteral`; `templateLit` a `TemplateLiteral`
holding its `expressions` (conditional expressions whose consequent and
alternate are string-literal payloads, and whose condition `test` is an
opaque payload the transformer never reads) and the cooked values of its
`quasis`.  Every other node kind is `other` with its node-valued child
slots (`singles`) and its sequence-valued child slots (`seqs`); scalar
slots such as source locations are irrelevant to the transformation and
are not represented. -/

/-- A property key: an `Identifier` with a name, or any other key shape
(the top-level loop of `generatesAlchemy` skips those). -/
inductive PKey where
  | ident (name : String)
  | nonIdent
deriving Repr, DecidableEq

/-- The name read off a property key by `property.key.name`; a
non-identifier key yields JS `undefined`, rendered as the string
`"undefined"` when it reaches a string position. -/
def pkeyName : PKey → String
  | .ident n => n
  | .nonIdent => "undefined"

/-- A ternary expression embedded in a template literal: `test` is the
condition (opaque payload, never read or written by the transformer),
`consequent`/`alternate` are the values of its string-literal branches. -/
structure CondE where
  test : String
  consequent : String
  alternate : String
deriving Repr, DecidableEq

inductive Node where
  | objectExpr (props : List (PKey × Node))
  | stringLit (value : String)
  | templateLit (expressions : List CondE) (quasis : List String)
  | other (kind : String) (singles : List Node) (seqs : List (List Node))
deriving Repr

/-- `lodash.cloneDeep`: a deep copy is structurally equal to its source;
in the value semantics of this model it is the value itself. -/
def cloneDeep (n : Node) : Node := n

/-! ## `JSON.stringify` on nodes and the fingerprint

`src/alchemy.js` line 193 hashes `JSON.stringify(callback.body)` with all
whitespace removed.  `stringifyNode` models the compact JSON serialization
of the node model (`JSON.stringify` emits no whitespace of its own, so the
whitespace removed afterwards comes only from string payloads). -/

def stringifyKey : PKey → String
  | .ident n => "\x7b\"type\":\"Identifier\",\"name\":" ++ jsonStringify n ++ "\x7d"
  | .nonIdent => "\x7b\"type\":\"NonIdentifierKey\"\x7d"

def stringifyCond (c : CondE) : String :=
  "\x7b\"type\":\"ConditionalExpression\",\"test\":" ++ jsonStringify c.test ++
    ",\"consequent\":" ++ jsonStringify c.consequent ++
    ",\"alternate\":" ++ jsonStringify c.alternate ++ "\x7d"

def stringifyConds : List CondE → String
  | [] => ""
  | c :: cs => stringifyCond c ++ "," ++ stringifyConds cs

def stringifyQuasis : List String → String
  | [] => ""
  | q :: qs => "\x7b\"cooked\":" ++ jsonStringify q ++ "\x7d," ++ stringifyQuasis qs

mutual

def stringifyNode : Node → String
  | .objectExpr props =>
      "\x7b\"type\":\"ObjectExpression\",\"properties\":[" ++ stringifyProps props ++ "]\x7d"
  | .stringLit v =>
      "\x7b\"type\":\"StringLiteral\",\"value\":" ++ jsonStringify v ++ "\x7d"
  | .templateLit exprs quasis =>
      "\x7b\"type\":\"TemplateLiteral\",\"expressions\":[" ++ stringifyConds exprs ++
        "],\"quasis\":[" ++ stringifyQuasis quasis ++ "]\x7d"
  | .other kind singles seqs =>
      "\x7b\"type\":" ++ jsonStringify kind ++ ",\"nodes\":[" ++ stringifyNodes singles ++
        "],\"seqs\":[" ++ stringifySeqs seqs ++ "]\x7d"
termination_by structural n => n

def stringifyProps : List (PKey × Node) → String
  | [] => ""
  | p :: ps =>
      "\x7b\"key\":" ++ stringifyKey p.1 ++ ",\"value\":" ++ stringifyNode p.2 ++ "\x7d," ++
        stringifyProps ps
termination_by structural l => l

def stringifyNodes : List Node → String
  | [] => ""
  | n :: ns => stringifyNode n ++ "," ++ stringifyNodes ns
termination_by structural l => l

def stringifySeqs : List (List Node) → String
  | [] => ""
  | s :: ss => "[" ++ stringifyNodes s ++ "]," ++ stringifySeqs ss
termination_by structural l => l

end

/-- The transform-cache fingerprint of a callback body, exactly as computed
on line 193 of `src/alchemy.js`:
`generatesHashingHex(JSON.stringify(callback.body).replace(/\s+/g, ""), true, false)`. -/
def fingerprint (body : Node) : String :=
  generatesHashingHex (removeWhitespace (stringifyNode body)) true false

/-! ## The external style engine

`alchemyProcessing` lives in the native module behind `index.js`; the core
treats it as an opaque synchronous function of
`(propertyName, jsonQuotedValue, moduleScoped, filePath, pseudoGroup)`
that returns a class-name token (possibly empty) or throws.  Engine
invocations are recorded so that call-counting properties can be stated. -/

/-- The argument tuple of one `alchemyProcessing` invocation. -/
structure EngineCall where
  propName : String
  value : String
  isModular : Bool
  filePath : String
  pseudo : String
deriving Repr, DecidableEq

/-- Outcome of one engine invocation: a returned token, or a thrown
exception. -/
inductive EngineResult where
  | ok (token : String)
  | thrown
deriving Repr, DecidableEq

def Engine : Type := EngineCall → EngineResult

/-- An engine that never throws, built from a pure token function. -/
def pureEngine (f : EngineCall → String) : Engine :=
  fun c => .ok (f c)

/-- An engine that throws on the property named `a` and returns the
non-empty token `<name>!` on every other property. -/
def throwingEngineA : Engine :=
  fun c => if c.propName = "a" then .thrown else .ok (c.propName ++ "!")

/-! ## The property transformer (`generatesAlchemy`)

Each function returns the rewritten value, the list of engine invocations
it performed, and a flag telling whether an exception escaped it (to be
caught by the `try`/`catch` wrapping the loop of `generatesAlchemy`).
Mutation in place is modelled by returning the rebuilt value; when an
exception escapes, the returned value carries exactly the mutations that
had already been applied at the throw point. -/

/-- `transformTemplateLiteral` (`src/alchemy.js` lines 10-53).  For a
`TemplateLiteral` value: if a first expression exists, the consequent and
alternate are pushed through the engine and each is replaced only by a
non-empty result (both engine calls happen before either mutation, so a
throw leaves the value untouched); otherwise the first quasi's cooked
value is transformed.  Any other value type is left untouched. -/
def transformTemplateLiteral (E : Engine) (keyName : String) (value : Node)
    (isModular : Bool) (filePath : Option String) (currentPseudo : String) :
    Node × List EngineCall × Bool :=
  match value with
  | .templateLit exprs quasis =>
    match exprs with
    | condExpr :: restExprs =>
        let c1 : EngineCall :=
          ⟨keyName, jsonStringify (doubleToSingleQuotes condExpr.consequent),
            isModular, filePath.getD "", currentPseudo⟩
        match E c1 with
        | .thrown => (.templateLit (condExpr :: restExprs) quasis, [c1], true)
        | .ok classNameConsequent =>
          let c2 : EngineCall :=
            ⟨keyName, jsonStringify (doubleToSingleQuotes condExpr.alternate),
              isModular, filePath.getD "", currentPseudo⟩
          match E c2 with
          | .thrown => (.templateLit (condExpr :: restExprs) quasis, [c1, c2], true)
          | .ok classNameAlternate =>
              (.templateLit
                ({ condExpr with
                    consequent :=
                      if classNameConsequent ≠ "" then classNameConsequent
                      else condExpr.consequent,
                    alternate :=
                      if classNameAlternate ≠ "" then classNameAlternate
                      else condExpr.alternate } :: restExprs) quasis,
               [c1, c2], false)
    | [] =>
      match quasis with
      | q :: restQuasis =>
          let c : EngineCall :=
            ⟨keyName, jsonStringify (doubleToSingleQuotes q),
              isModular, filePath.getD "", currentPseudo⟩
          match E c with
          | .thrown => (.templateLit [] (q :: restQuasis), [c], true)
          | .ok className =>
              (.templateLit [] ((if className ≠ "" then className else q) :: restQuasis),
               [c], false)
      | [] => (.templateLit [] [], [], false)
  | v => (v, [], false)

/-- One iteration of the nested-property loop (`src/alchemy.js` lines
88-103): a string-literal value is transformed with the enclosing key as
pseudo-group, anything else goes through `transformTemplateLiteral`.  The
nested loop performs no identifier check on the key. -/
def transformNestedProp (E : Engine) (isModular : Bool) (filePath : Option String)
    (outerKey : String) (p : PKey × Node) : (PKey × Node) × List EngineCall × Bool :=
  match p.2 with
  | .stringLit s =>
      let c : EngineCall :=
        ⟨pkeyName p.1, jsonStringify (doubleToSingleQuotes s),
          isModular, filePath.getD "", outerKey⟩
      match E c with
      | .thrown => (p, [c], true)
      | .ok className =>
          ((p.1, .stringLit (if className ≠ "" then className else s)), [c], false)
  | _ =>
      let r := transformTemplateLiteral E (pkeyName p.1) p.2 isModular filePath outerKey
      ((p.1, r.1), r.2.1, r.2.2)

/-- The nested-property loop.  When an iteration lets an exception escape,
the loop stops: earlier properties keep their transformations, the
remaining ones are returned untouched, and the flag reports the escape. -/
def transformNestedProps (E : Engine) (isModular : Bool) (filePath : Option String)
    (outerKey : String) : List (PKey × Node) → List (PKey × Node) × List EngineCall × Bool
  | [] => ([], [], false)
  | p :: ps =>
      let r := transformNestedProp E isModular filePath outerKey p
      if r.2.2 then (r.1 :: ps, r.2.1, true)
      else
        let rest := transformNestedProps E isModular filePath outerKey ps
        (r.1 :: rest.1, r.2.1 ++ rest.2.1, rest.2.2)
termination_by structural l => l

/-- The top-level property loop of `generatesAlchemy` (lines 69-107):
non-identifier keys are skipped; a string-literal value is transformed
with pseudo-group `""`; an object-expression value has its properties
transformed one level deep with the enclosing key as pseudo-group; any
other value goes through `transformTemplateLiteral`.  An escaping
exception stops the loop. -/
def transformProps (E : Engine) (isModular : Bool) (filePath : Option String) :
    List (PKey × Node) → List (PKey × Node) × List EngineCall × Bool
  | [] => ([], [], false)
  | p :: ps =>
    match p.1 with
    | .nonIdent =>
        let rest := transformProps E isModular filePath ps
        (p :: rest.1, rest.2.1, rest.2.2)
    | .ident keyName =>
      match p.2 with
      | .stringLit s =>
          let c : EngineCall :=
            ⟨keyName, jsonStringify (doubleToSingleQuotes s),
              isModular, filePath.getD "", ""⟩
          (match E c with
          | .thrown => (p :: ps, [c], true)
          | .ok className =>
              let rest := transformProps E isModular filePath ps
              ((p.1, .stringLit (if className ≠ "" then className else s)) :: rest.1,
               c :: rest.2.1, rest.2.2))
      | .objectExpr nested =>
          let rn := transformNestedProps E isModular filePath keyName nested
          if rn.2.2 then ((p.1, .objectExpr rn.1) :: ps, rn.2.1, true)
          else
            let rest := transformProps E isModular filePath ps
            ((p.1, .objectExpr rn.1) :: rest.1, rn.2.1 ++ rest.2.1, rest.2.2)
      | v =>
          let r := transformTemplateLiteral E keyName v isModular filePath ""
          if r.2.2 then ((p.1, r.1) :: ps, r.2.1, true)
          else
            let rest := transformProps E isModular filePath ps
            ((p.1, r.1) :: rest.1, r.2.1 ++ rest.2.1, rest.2.2)
termination_by structural l => l

/-- `generatesAlchemy` (lines 63-111): a no-op on anything that is not an
`ObjectExpression`; otherwise the property loop runs under the
`try`/`catch` of lines 64/108, which logs and swallows any escaping
exception, so the function itself never throws. -/
def generatesAlchemy (E : Engine) (isModular : Bool) (filePath : Option String)
    (node : Node) : Node × List EngineCall :=
  match node with
  | .objectExpr props =>
      let r := transformProps E isModular filePath props
      (.objectExpr r.1, r.2.1)
  | n => (n, [])

/-! ## The tree walker (`walkThroughOutAst`)

The loop of `src/alchemy.js` lines 121-152 pops a node from an explicit
stack, runs `generatesAlchemy` on it, and pushes every object-valued child
slot — except that when the node's type is `ObjectExpression` its
array-valued children (its properties) are not pushed.  `nodeChildren`
collects the pushed children of one node.  (A pushed JS array is itself
popped later and iterated, placing its elements on the stack, and
`generatesAlchemy` ignores the array value; the model therefore pushes the
elements of a sequence-valued slot directly.  Scalar slots such as source
locations, and the internals of template literals — conditional
expressions and quasi elements, on which `generatesAlchemy` is the
identity — are scalar payloads of the model.) -/

def nodeChildren : Node → List Node
  | .objectExpr _ => []
  | .stringLit _ => []
  | .templateLit _ _ => []
  | .other _ singles seqs => singles ++ seqs.flatten

theorem sum_sizeOf_lt (l : List Node) : ((l.map sizeOf).sum : Nat) < sizeOf l := by
  induction l with
  | nil => simp
  | cons a l ih => simp only [List.map_cons, List.sum_cons, List.cons.sizeOf_spec]; omega

theorem sum_sizeOf_flatten_lt (l : List (List Node)) :
    ((l.flatten.map sizeOf).sum : Nat) < sizeOf l := by
  induction l with
  | nil => simp
  | cons a l ih =>
      have h := sum_sizeOf_lt a
      simp only [List.flatten_cons, List.map_append, List.sum_append, List.cons.sizeOf_spec]
      omega

theorem nodeChildren_sizeOf_lt (n : Node) :
    (((nodeChildren n).map sizeOf).sum : Nat) < sizeOf n := by
  cases n with
  | objectExpr props => simp [nodeChildren]
  | stringLit v => simp [nodeChildren]
  | templateLit e q => simp [nodeChildren]
  | other kind singles seqs =>
      have h1 := sum_sizeOf_lt singles
      have h2 := sum_sizeOf_flatten_lt seqs
      simp only [nodeChildren, List.map_append, List.sum_append, Node.other.sizeOf_spec]
      omega

/-- `generatesAlchemy` rewrites only the properties of an
`ObjectExpression` (whose children are not walked) and is the identity on
every other node, so it never changes the children a node contributes to
the stack. -/
theorem nodeChildren_generatesAlchemy (E : Engine) (m : Bool) (fp : Option String)
    (n : Node) : nodeChildren (generatesAlchemy E m fp n).1 = nodeChildren n := by
  cases n <;> simp [generatesAlchemy, nodeChildren]

/-- The stack loop of `walkThroughOutAst` (lines 121-152): pop a node, run
`generatesAlchemy` on it, push the children of the (mutated) node.
Returns the visited nodes in visit order and the engine invocations
performed.  The loop's own `try`/`catch` never fires because
`generatesAlchemy` swallows its exceptions. -/
def walkThroughOutAst (E : Engine) (isModular : Bool) (filePath : Option String) :
    List Node → List Node × List EngineCall
  | [] => ([], [])
  | node :: stack =>
      let r := generatesAlchemy E isModular filePath node
      let rest := walkThroughOutAst E isModular filePath (nodeChildren r.1 ++ stack)
      (node :: rest.1, r.2 ++ rest.2)
termination_by stack => (stack.map sizeOf).sum
decreasing_by
  simp only [nodeChildren_generatesAlchemy, List.map_append, List.sum_append, List.map_cons,
    List.sum_cons]
  exact Nat.add_lt_add_right (nodeChildren_sizeOf_lt _) _

/-! The accumulated effect of the walk on the tree, expressed
structurally: every walked `ObjectExpression` is rewritten in place by
`generatesAlchemy`; the walk does not descend into the properties of an
`ObjectExpression`.  `walkThroughOutAst_calls` below proves that this
denotation performs exactly the engine invocations of the stack loop. -/

mutual

def walkTransform (E : Engine) (isModular : Bool) (filePath : Option String) :
    Node → Node × List EngineCall
  | .objectExpr props => generatesAlchemy E isModular filePath (.objectExpr props)
  | .other kind singles seqs =>
      let rs := walkTransformList E isModular filePath singles
      let rq := walkTransformSeqs E isModular filePath seqs
      (.other kind rs.1 rq.1, rs.2 ++ rq.2)
  | n => (n, [])
termination_by structural n => n

def walkTransformList (E : Engine) (isModular : Bool) (filePath : Option String) :
    List Node → List Node × List EngineCall
  | [] => ([], [])
  | n :: ns =>
      let r := walkTransform E isModular filePath n
      let rest := walkTransformList E isModular filePath ns
      (r.1 :: rest.1, r.2 ++ rest.2)
termination_by structural l => l

def walkTransformSeqs (E : Engine) (isModular : Bool) (filePath : Option String) :
    List (List Node) → List (List Node) × List EngineCall
  | [] => ([], [])
  | s :: ss =>
      let r := walkTransformList E isModular filePath s
      let rest := walkTransformSeqs E isModular filePath ss
      (r.1 :: rest.1, r.2 ++ rest.2)
termination_by structural l => l

end

/-! The nodes reachable from a root through named-child and sequence-child
edges, where — per the skip rule — the properties of an
`ObjectExpression` are not edges of the walk.  Listed in preorder; a tree
value lists each of its reachable positions exactly once. -/

mutual

def reachableList : Node → List Node
  | .objectExpr props => [.objectExpr props]
  | .stringLit v => [.stringLit v]
  | .templateLit e q => [.templateLit e q]
  | .other kind singles seqs =>
      .other kind singles seqs :: (reachableEach singles ++ reachableSeqs seqs)
termination_by structural n => n

def reachableEach : List Node → List Node
  | [] => []
  | n :: ns => reachableList n ++ reachableEach ns
termination_by structural l => l

def reachableSeqs : List (List Node) → List Node
  | [] => []
  | s :: ss => reachableEach s ++ reachableSeqs ss
termination_by structural l => l

end

/-! ## Counting transformable units

The number of engine invocations that transforming a value produces when
the engine never throws, computed from the shape of the value alone: one
per string-literal property, two per ternary template (consequent and
alternate), one per static single-quasi template. -/

def templateCallCount : Node → Nat
  | .templateLit (_ :: _) _ => 2
  | .templateLit [] (_ :: _) => 1
  | _ => 0

def nestedPropCallCount (p : PKey × Node) : Nat :=
  match p.2 with
  | .stringLit _ => 1
  | v => templateCallCount v

def propCallCount (p : PKey × Node) : Nat :=
  match p.1 with
  | .nonIdent => 0
  | .ident _ =>
    match p.2 with
    | .stringLit _ => 1
    | .objectExpr nested => (nested.map nestedPropCallCount).sum
    | v => templateCallCount v

mutual

def nodeCallCount : Node → Nat
  | .objectExpr props => (props.map propCallCount).sum
  | .other _ singles seqs => listCallCount singles + seqsCallCount seqs
  | _ => 0
termination_by structural n => n

def listCallCount : List Node → Nat
  | [] => 0
  | n :: ns => nodeCallCount n + listCallCount ns
termination_by structural l => l

def seqsCallCount : List (List Node) → Nat
  | [] => 0
  | s :: ss => listCallCount s + seqsCallCount ss
termination_by structural l => l

end

/-! ## Configuration (`src/scripts/parseConfig.js`)

`parseConfig` resolves `galadriel.json`; when the file exists and parses,
it returns `{ exclude, module }` with defaults `[]` and `false`; when the
file is absent, unreadable or malformed (the `catch` path), it returns the
empty array `[]`.  Destructuring `{ exclude, module }` out of that array
yields `undefined` for both fields, modelled by `ParseResult.emptyArr`. -/

/-- The observable condition of the configuration file. -/
inductive ConfigFile where
  | absent
  | unreadable
  | malformed
  | valid (exclude : Option (List String)) (moduleFlag : Option Bool)
deriving Repr

/-- What `parseConfig()` returns: a configuration object, or the empty
array of the missing/failed path. -/
inductive ParseResult where
  | config (exclude : List String) (moduleFlag : Bool)
  | emptyArr
deriving Repr

def parseConfig : ConfigFile → ParseResult
  | .valid exclude moduleFlag => .config (exclude.getD []) (moduleFlag.getD false)
  | .absent => .emptyArr
  | .unreadable => .emptyArr
  | .malformed => .emptyArr

/-! ## The Babel plugin (`module.exports` of `src/alchemy.js`)

Module-level state: `usedObjects` (the fingerprints already encountered)
and `transformedNodes` (fingerprint to deep copy of the transformed
body).  The `CallExpression` visitor checks the exclusion list, the
callee, and the callback shape, then runs the fingerprint/cache
protocol. -/

/-- The shared mutable state of the plugin process. -/
structure AlchemySt where
  usedObjects : List String
  transformedNodes : List (String × Node)
deriving Repr

def emptySt : AlchemySt := ⟨[], []⟩

/-- Lookup in the `transformedNodes` object; the JS truthiness test
`if (!collectedNode)` distinguishes a stored node from `undefined`. -/
def cacheLookup : List (String × Node) → String → Option Node
  | [], _ => none
  | (h, b) :: rest, key => if h = key then some b else cacheLookup rest key

/-- The type of `arguments[0]` of a call site. -/
inductive CbType where
  | functionExpr
  | arrowFunctionExpr
  | otherType
deriving Repr, DecidableEq

structure Callback where
  cbType : CbType
  body : Node
deriving Repr

/-- A `CallExpression` site as the visitor observes it: the containing
file (`state.filename`, possibly `undefined`), whether the callee is the
identifier `craftingStyles`, and its first argument if any. -/
structure Site where
  filename : Option String
  calleeIsCraftingStyles : Bool
  callbackArg : Option Callback
deriving Repr

def cbIsFunction (cb : Callback) : Bool :=
  match cb.cbType with
  | .functionExpr => true
  | .arrowFunctionExpr => true
  | .otherType => false

/-- The exclusion test of lines 169-170:
`exclude.some(__path => filePath?.includes(resolve(__path)))`; an
undefined `state.filename` makes every test falsy. -/
def isExcluded (resolve : String → String) (exclude : List String) (site : Site) : Bool :=
  exclude.any fun p =>
    match site.filename with
    | some f => strContains f (resolve p)
    | none => false

/-- All gates a site must pass before the fingerprint/cache protocol runs:
not excluded, callee `craftingStyles`, and a function or arrow-function
first argument. -/
def eligible (resolve : String → String) (exclude : List String) (site : Site) : Bool :=
  !isExcluded resolve exclude site && site.calleeIsCraftingStyles &&
    (match site.callbackArg with
     | some cb => cbIsFunction cb
     | none => false)

/-- The `CallExpression` visitor (lines 166-224) on one site: returns the
updated process state, the site with its callback body possibly replaced,
and the engine invocations performed.  The body of the visitor sits in a
`try`/`catch` that logs and swallows any exception, in particular the
`TypeError` raised by `exclude.some` when the configuration was the empty
array. -/
def visitCallExpression (E : Engine) (resolve : String → String) (pr : ParseResult)
    (st : AlchemySt) (site : Site) : AlchemySt × Site × List EngineCall :=
  match pr with
  | .emptyArr => (st, site, [])
  | .config exclude moduleFlag =>
    if isExcluded resolve exclude site then (st, site, [])
    else if !site.calleeIsCraftingStyles then (st, site, [])
    else
      match site.callbackArg with
      | none => (st, site, [])
      | some cb =>
        if cbIsFunction cb then
          let hashedNode := fingerprint cb.body
          if hashedNode ∈ st.usedObjects then
            match cacheLookup st.transformedNodes hashedNode with
            | some collectedNode =>
                (st, { site with callbackArg := some { cb with body := cloneDeep collectedNode } },
                 [])
            | none =>
                let r := walkTransform E moduleFlag site.filename cb.body
                (⟨st.usedObjects ++ [hashedNode], (hashedNode, cloneDeep r.1) :: st.transformedNodes⟩,
                 { site with callbackArg := some { cb with body := r.1 } }, r.2)
          else
            let r := walkTransform E moduleFlag site.filename cb.body
            (⟨st.usedObjects ++ [hashedNode], (hashedNode, cloneDeep r.1) :: st.transformedNodes⟩,
             { site with callbackArg := some { cb with body := r.1 } }, r.2)
        else (st, site, [])

/-- One process run: the visitor applied to each encountered call site in
order, threading the module-level state. -/
def processCallSites (E : Engine) (resolve : String → String) (pr : ParseResult)
    (st : AlchemySt) : List Site → AlchemySt × List (Site × List EngineCall)
  | [] => (st, [])
  | s :: ss =>
      let r := visitCallExpression E resolve pr st s
      let rest := processCallSites E resolve pr r.1 ss
      (rest.1, (r.2.1, r.2.2) :: rest.2)
termination_by structural l => l

/-! ## The build-time exclusion filter (`assembleApplicationStyles`)

The build pass collects candidate files with a glob whose ignore list is
three built-in patterns followed by the configured exclusion entries, each
entry expanded by the folder-name rule of lines 24-33; a surviving path is
then processed only when its first character is not `.` (line 45). -/

/-- The folder-name expansion applied to one configured exclusion entry:
an entry containing no `./`, no `/` and no `.` is a bare folder name and
becomes `<name>/**`; every other entry is used verbatim. -/
def expandExcludeItem (item : String) : String :=
  if !strContains item "./" && !strContains item "/" && !strContains item "." then
    item ++ "/**"
  else item

/-- Modelled from the spec: glob matching is performed by the external
`glob` package (an excluded collaborator); §4.5 prescribes that a
`<name>/**` pattern covers the folder and everything below it and that
every other entry matches as a verbatim glob/path.  The three built-in
patterns are matched by their evident brace expansions
(`**/*.{config.js,config.ts}` is a suffix test, `**/*.{.}` is `**/*..`). -/
def matchesGlob (pattern path : String) : Bool :=
  if strEnds pattern "/**" then
    let base := pattern.dropRight 3
    path == base || strStarts path (base ++ "/")
  else if pattern == "**/*.\x7bconfig.js,config.ts\x7d" then
    strEnds path ".config.js" || strEnds path ".config.ts"
  else if pattern == "**/*.\x7b.\x7d" then
    strEnds path ".."
  else pattern == path

/-- The fixed ignore patterns of the glob call (lines 20-23). -/
def builtinIgnores : List String :=
  ["node_modules/**", "**/*.\x7bconfig.js,config.ts\x7d", "**/*.\x7b.\x7d"]

def ignoreList (exclude : List String) : List String :=
  builtinIgnores ++ exclude.map expandExcludeItem

/-- JS `__path[0] === "."`; on the empty string `__path[0]` is
`undefined`, which compares unequal to `"."`. -/
def startsWithDot (path : String) : Bool :=
  match path.toList with
  | [] => false
  | c :: _ => c = '.'

/-- Whether `assembleApplicationStyles` hands a candidate path to
`processContent`: it must survive the glob ignore list and must not begin
with a dot. -/
def fileProcessed (exclude : List String) (path : String) : Bool :=
  !(ignoreList exclude).any (fun p => matchesGlob p path) && !startsWithDot path

/-! ## General lemmas about the tree walker -/

theorem reachableEach_append (l1 l2 : List Node) :
    reachableEach (l1 ++ l2) = reachableEach l1 ++ reachableEach l2 := by
  induction l1 with
  | nil => simp [reachableEach]
  | cons n ns ih => simp [reachableEach, ih]

theorem reachableSeqs_eq_flatten (ss : List (List Node)) :
    reachableSeqs ss = reachableEach ss.flatten := by
  induction ss with
  | nil => simp [reachableSeqs, reachableEach]
  | cons s ss ih => simp [reachableSeqs, List.flatten_cons, reachableEach_append, ih]

/-- Unfolds one visit: a node followed by everything reachable from its
walked children. -/
theorem reachableList_eq_cons (n : Node) :
    reachableList n = n :: reachableEach (nodeChildren n) := by
  cases n <;>
    simp [reachableList, nodeChildren, reachableEach, reachableEach_append,
      reachableSeqs_eq_flatten]

/-- The stack loop visits exactly the reachable nodes of the stacked
subtrees, in preorder, whatever the engine does. -/
theorem walkThroughOutAst_visits (E : Engine) (m : Bool) (fp : Option String) :
    (stack : List Node) → (walkThroughOutAst E m fp stack).1 = reachableEach stack
  | [] => by simp [walkThroughOutAst, reachableEach]
  | n :: stack => by
      have ih := walkThroughOutAst_visits E m fp
        (nodeChildren (generatesAlchemy E m fp n).1 ++ stack)
      rw [nodeChildren_generatesAlchemy] at ih
      rw [walkThroughOutAst]
      simp only [nodeChildren_generatesAlchemy, ih, reachableEach_append]
      rw [reachableEach, reachableList_eq_cons]
      simp
termination_by stack => (stack.map sizeOf).sum
decreasing_by
  simp only [nodeChildren_generatesAlchemy, List.map_append, List.sum_append, List.map_cons,
    List.sum_cons]
  exact Nat.add_lt_add_right (nodeChildren_sizeOf_lt _) _

/-- The stack loop invokes `generatesAlchemy` on every visited node: its
engine calls are the concatenation, over the visited nodes, of the calls
`generatesAlchemy` performs on each. -/
theorem walkThroughOutAst_calls (E : Engine) (m : Bool) (fp : Option String) :
    (stack : List Node) → (walkThroughOutAst E m fp stack).2 =
      ((reachableEach stack).map (fun v => (generatesAlchemy E m fp v).2)).flatten
  | [] => by simp [walkThroughOutAst, reachableEach]
  | n :: stack => by
      have ih := walkThroughOutAst_calls E m fp
        (nodeChildren (generatesAlchemy E m fp n).1 ++ stack)
      rw [nodeChildren_generatesAlchemy] at ih
      rw [walkThroughOutAst]
      simp only [nodeChildren_generatesAlchemy, ih, reachableEach_append]
      rw [reachableEach, reachableList_eq_cons]
      simp
termination_by stack => (stack.map sizeOf).sum
decreasing_by
  simp only [nodeChildren_generatesAlchemy, List.map_append, List.sum_append, List.map_cons,
    List.sum_cons]
  exact Nat.add_lt_add_right (nodeChildren_sizeOf_lt _) _

/-! The structural denotation `walkTransform` performs exactly the engine
calls of the stack loop, in the same order. -/

mutual

theorem walkTransform_calls (E : Engine) (m : Bool) (fp : Option String) :
    (n : Node) → (walkTransform E m fp n).2 =
      ((reachableList n).map (fun v => (generatesAlchemy E m fp v).2)).flatten
  | .objectExpr props => by
      simp [walkTransform, reachableList, generatesAlchemy]
  | .stringLit v => by
      simp [walkTransform, reachableList, generatesAlchemy]
  | .templateLit e q => by
      simp [walkTransform, reachableList, generatesAlchemy]
  | .other kind singles seqs => by
      have h1 := walkTransformList_calls E m fp singles
      have h2 := walkTransformSeqs_calls E m fp seqs
      simp [walkTransform, reachableList, generatesAlchemy, h1, h2]
termination_by structural n => n

theorem walkTransformList_calls (E : Engine) (m : Bool) (fp : Option String) :
    (l : List Node) → (walkTransformList E m fp l).2 =
      ((reachableEach l).map (fun v => (generatesAlchemy E m fp v).2)).flatten
  | [] => by simp [walkTransformList, reachableEach]
  | n :: ns => by
      have h1 := walkTransform_calls E m fp n
      have h2 := walkTransformList_calls E m fp ns
      simp [walkTransformList, reachableEach, h1, h2]
termination_by structural l => l

theorem walkTransformSeqs_calls (E : Engine) (m : Bool) (fp : Option String) :
    (ss : List (List Node)) → (walkTransformSeqs E m fp ss).2 =
      ((reachableSeqs ss).map (fun v => (generatesAlchemy E m fp v).2)).flatten
  | [] => by simp [walkTransformSeqs, reachableSeqs]
  | s :: ss => by
      have h1 := walkTransformList_calls E m fp s
      have h2 := walkTransformSeqs_calls E m fp ss
      simp [walkTransformSeqs, reachableSeqs, h1, h2]
termination_by structural l => l

end

/-- The structural denotation agrees with the stack loop on the engine
calls of a whole walk. -/
theorem walkTransform_eq_stack_calls (E : Engine) (m : Bool) (fp : Option String) (n : Node) :
    (walkTransform E m fp n).2 = (walkThroughOutAst E m fp [n]).2 := by
  rw [walkThroughOutAst_calls, walkTransform_calls]
  simp [reachableEach]

/-! ## General lemmas about the property transformer -/

theorem transformTemplateLiteral_pure_noThrow (f : EngineCall → String) (k : String)
    (v : Node) (m : Bool) (fp : Option String) (ps : String) :
    (transformTemplateLiteral (pureEngine f) k v m fp ps).2.2 = false := by
  cases v with
  | templateLit exprs quasis =>
      cases exprs with
      | nil => cases quasis <;> simp [transformTemplateLiteral, pureEngine]
      | cons c rest => simp [transformTemplateLiteral, pureEngine]
  | objectExpr props => simp [transformTemplateLiteral]
  | stringLit s => simp [transformTemplateLiteral]
  | other kind singles seqs => simp [transformTemplateLiteral]

theorem transformNestedProp_pure_noThrow (f : EngineCall → String) (m : Bool)
    (fp : Option String) (ok : String) (p : PKey × Node) :
    (transformNestedProp (pureEngine f) m fp ok p).2.2 = false := by
  obtain ⟨k, v⟩ := p
  cases v <;>
    simp [transformNestedProp, pureEngine, transformTemplateLiteral_pure_noThrow]

theorem transformNestedProps_pure_noThrow (f : EngineCall → String) (m : Bool)
    (fp : Option String) (ok : String) (ps : List (PKey × Node)) :
    (transformNestedProps (pureEngine f) m fp ok ps).2.2 = false := by
  induction ps with
  | nil => simp [transformNestedProps]
  | cons p rest ih =>
      simp [transformNestedProps, transformNestedProp_pure_noThrow, ih]

theorem transformProps_pure_noThrow (f : EngineCall → String) (m : Bool)
    (fp : Option String) (ps : List (PKey × Node)) :
    (transformProps (pureEngine f) m fp ps).2.2 = false := by
  induction ps with
  | nil => simp [transformProps]
  | cons p rest ih =>
      obtain ⟨k, v⟩ := p
      cases k with
      | nonIdent => simpa [transformProps] using ih
      | ident key =>
          cases v <;>
            simp [transformProps, pureEngine, transformNestedProps_pure_noThrow,
              transformTemplateLiteral_pure_noThrow, ih]

/-- With an engine that never throws, the top-level property loop
processes the two halves of a split property list independently. -/
theorem transformProps_pure_append (f : EngineCall → String) (m : Bool)
    (fp : Option String) (l1 l2 : List (PKey × Node)) :
    transformProps (pureEngine f) m fp (l1 ++ l2) =
      ((transformProps (pureEngine f) m fp l1).1 ++ (transformProps (pureEngine f) m fp l2).1,
       (transformProps (pureEngine f) m fp l1).2.1 ++ (transformProps (pureEngine f) m fp l2).2.1,
       (transformProps (pureEngine f) m fp l2).2.2) := by
  induction l1 with
  | nil => simp [transformProps]
  | cons p rest ih =>
      obtain ⟨k, v⟩ := p
      cases k with
      | nonIdent => simp [transformProps, ih]
      | ident key =>
          cases v <;>
            simp [transformProps, pureEngine, transformNestedProps_pure_noThrow,
              transformTemplateLiteral_pure_noThrow, ih]

/-! ## Call-count lemmas (pure engine) -/

theorem transformTemplateLiteral_pure_count (f : EngineCall → String) (k : String)
    (v : Node) (m : Bool) (fp : Option String) (ps : String) :
    ((transformTemplateLiteral (pureEngine f) k v m fp ps).2.1).length = templateCallCount v := by
  cases v with
  | templateLit exprs quasis =>
      cases exprs with
      | nil => cases quasis <;> simp [transformTemplateLiteral, pureEngine, templateCallCount]
      | cons c rest => simp [transformTemplateLiteral, pureEngine, templateCallCount]
  | objectExpr props => simp [transformTemplateLiteral, templateCallCount]
  | stringLit s => simp [transformTemplateLiteral, templateCallCount]
  | other kind singles seqs => simp [transformTemplateLiteral, templateCallCount]

theorem transformNestedProp_pure_count (f : EngineCall → String) (m : Bool)
    (fp : Option String) (ok : String) (p : PKey × Node) :
    ((transformNestedProp (pureEngine f) m fp ok p).2.1).length = nestedPropCallCount p := by
  obtain ⟨k, v⟩ := p
  cases v <;>
    simp [transformNestedProp, pureEngine, nestedPropCallCount,
      transformTemplateLiteral_pure_count, templateCallCount]

theorem transformNestedProps_pure_count (f : EngineCall → String) (m : Bool)
    (fp : Option String) (ok : String) (ps : List (PKey × Node)) :
    ((transformNestedProps (pureEngine f) m fp ok ps).2.1).length =
      (ps.map nestedPropCallCount).sum := by
  induction ps with
  | nil => simp [transformNestedProps]
  | cons p rest ih =>
      simp [transformNestedProps, transformNestedProp_pure_noThrow,
        transformNestedProp_pure_count, ih]

theorem transformProps_pure_count (f : EngineCall → String) (m : Bool)
    (fp : Option String) (ps : List (PKey × Node)) :
    ((transformProps (pureEngine f) m fp ps).2.1).length = (ps.map propCallCount).sum := by
  induction ps with
  | nil => simp [transformProps]
  | cons p rest ih =>
      obtain ⟨k, v⟩ := p
      cases k with
      | nonIdent => simpa [transformProps, propCallCount] using ih
      | ident key =>
          cases v <;>
            [skip; skip; skip; skip] <;>
              (simp [transformProps, pureEngine, propCallCount,
                transformNestedProps_pure_noThrow, transformNestedProps_pure_count,
                transformTemplateLiteral_pure_noThrow, transformTemplateLiteral_pure_count,
                templateCallCount, ih]
               try omega)

theorem generatesAlchemy_pure_count (f : EngineCall → String) (m : Bool)
    (fp : Option String) (props : List (PKey × Node)) :
    ((generatesAlchemy (pureEngine f) m fp (.objectExpr props)).2).length =
      nodeCallCount (.objectExpr props) := by
  simp [generatesAlchemy, nodeCallCount, transformProps_pure_count]

mutual

theorem walkTransform_pure_count (f : EngineCall → String) (m : Bool) (fp : Option String) :
    (n : Node) → ((walkTransform (pureEngine f) m fp n).2).length = nodeCallCount n
  | .objectExpr props => by
      simpa [walkTransform] using generatesAlchemy_pure_count f m fp props
  | .stringLit v => by simp [walkTransform, nodeCallCount]
  | .templateLit e q => by simp [walkTransform, nodeCallCount]
  | .other kind singles seqs => by
      have h1 := walkTransformList_pure_count f m fp singles
      have h2 := walkTransformSeqs_pure_count f m fp seqs
      simp [walkTransform, nodeCallCount, h1, h2]
termination_by structural n => n

theorem walkTransformList_pure_count (f : EngineCall → String) (m : Bool) (fp : Option String) :
    (l : List Node) → ((walkTransformList (pureEngine f) m fp l).2).length = listCallCount l
  | [] => by simp [walkTransformList, listCallCount]
  | n :: ns => by
      have h1 := walkTransform_pure_count f m fp n
      have h2 := walkTransformList_pure_count f m fp ns
      simp [walkTransformList, listCallCount, h1, h2]
termination_by structural l => l

theorem walkTransformSeqs_pure_count (f : EngineCall → String) (m : Bool) (fp : Option String) :
    (ss : List (List Node)) → ((walkTransformSeqs (pureEngine f) m fp ss).2).length = seqsCallCount ss
  | [] => by simp [walkTransformSeqs, seqsCallCount]
  | s :: ss => by
      have h1 := walkTransformList_pure_count f m fp s
      have h2 := walkTransformSeqs_pure_count f m fp ss
      simp [walkTransformSeqs, seqsCallCount, h1, h2]
termination_by structural l => l

end

/-! ## Engine-call file-path lemmas

Every engine call constructed anywhere in the transformer carries
`filePath || ""` of the walk that produced it. -/

theorem transformTemplateLiteral_path (E : Engine) (k : String) (v : Node) (m : Bool)
    (fp : Option String) (ps : String) :
    ∀ c ∈ (transformTemplateLiteral E k v m fp ps).2.1, c.filePath = fp.getD "" := by
  cases v with
  | templateLit exprs quasis =>
      cases exprs with
      | nil =>
          cases quasis with
          | nil => simp [transformTemplateLiteral]
          | cons q rest =>
              cases hE : E ⟨k, jsonStringify (doubleToSingleQuotes q), m, fp.getD "", ps⟩ <;>
                simp [transformTemplateLiteral, hE]
      | cons ce rest =>
          cases hE : E ⟨k, jsonStringify (doubleToSingleQuotes ce.consequent), m, fp.getD "", ps⟩ with
          | thrown => simp [transformTemplateLiteral, hE]
          | ok t =>
              cases hE2 : E ⟨k, jsonStringify (doubleToSingleQuotes ce.alternate), m, fp.getD "", ps⟩ <;>
                simp [transformTemplateLiteral, hE, hE2]
  | objectExpr props => simp [transformTemplateLiteral]
  | stringLit s => simp [transformTemplateLiteral]
  | other kind singles seqs => simp [transformTemplateLiteral]

theorem transformNestedProp_path (E : Engine) (m : Bool) (fp : Option String)
    (ok : String) (p : PKey × Node) :
    ∀ c ∈ (transformNestedProp E m fp ok p).2.1, c.filePath = fp.getD "" := by
  obtain ⟨k, v⟩ := p
  cases v with
  | stringLit s =>
      cases hE : E ⟨pkeyName k, jsonStringify (doubleToSingleQuotes s), m, fp.getD "", ok⟩ <;>
        simp [transformNestedProp, hE]
  | objectExpr props =>
      simpa [transformNestedProp] using transformTemplateLiteral_path E (pkeyName k) _ m fp ok
  | templateLit e q =>
      simpa [transformNestedProp] using transformTemplateLiteral_path E (pkeyName k) _ m fp ok
  | other kind singles seqs =>
      simpa [transformNestedProp] using transformTemplateLiteral_path E (pkeyName k) _ m fp ok

theorem transformNestedProps_path (E : Engine) (m : Bool) (fp : Option String)
    (ok : String) (ps : List (PKey × Node)) :
    ∀ c ∈ (transformNestedProps E m fp ok ps).2.1, c.filePath = fp.getD "" := by
  induction ps with
  | nil => simp [transformNestedProps]
  | cons p rest ih =>
      intro c hc
      have hp := transformNestedProp_path E m fp ok p
      by_cases he : (transformNestedProp E m fp ok p).2.2
      · rw [transformNestedProps] at hc
        simp only [he, if_true] at hc
        exact hp c hc
      · rw [transformNestedProps] at hc
        simp only [he, if_false, Bool.false_eq_true, List.mem_append] at hc
        rcases hc with hc | hc
        · exact hp c hc
        · exact ih c hc

theorem transformProps_path (E : Engine) (m : Bool) (fp : Option String)
    (ps : List (PKey × Node)) :
    ∀ c ∈ (transformProps E m fp ps).2.1, c.filePath = fp.getD "" := by
  induction ps with
  | nil => simp [transformProps]
  | cons p rest ih =>
      obtain ⟨k, v⟩ := p
      cases k with
      | nonIdent => simpa [transformProps] using ih
      | ident key =>
        cases v with
        | stringLit s =>
            cases hE : E ⟨key, jsonStringify (doubleToSingleQuotes s), m, fp.getD "", ""⟩ with
            | thrown => simp [transformProps, hE]
            | ok t =>
                intro c hc
                simp only [transformProps, hE, List.mem_cons] at hc
                rcases hc with hc | hc
                · simp [hc]
                · exact ih c hc
        | objectExpr nested =>
            intro c hc
            have hn := transformNestedProps_path E m fp key nested
            by_cases he : (transformNestedProps E m fp key nested).2.2
            · rw [transformProps] at hc
              simp only [he, if_true] at hc
              exact hn c hc
            · rw [transformProps] at hc
              simp only [he, if_false, Bool.false_eq_true, List.mem_append] at hc
              rcases hc with hc | hc
              · exact hn c hc
              · exact ih c hc
        | templateLit e q =>
            intro c hc
            have ht := transformTemplateLiteral_path E key (.templateLit e q) m fp ""
            by_cases he : (transformTemplateLiteral E key (.templateLit e q) m fp "").2.2
            · rw [transformProps] at hc
              simp only [he, if_true] at hc
              exact ht c hc
            · rw [transformProps] at hc
              simp only [he, if_false, Bool.false_eq_true, List.mem_append] at hc
              rcases hc with hc | hc
              · exact ht c hc
              · exact ih c hc
        | other kind singles seqs =>
            intro c hc
            have ht := transformTemplateLiteral_path E key (.other kind singles seqs) m fp ""
            by_cases he : (transformTemplateLiteral E key (.other kind singles seqs) m fp "").2.2
            · rw [transformProps] at hc
              simp only [he, if_true] at hc
              exact ht c hc
            · rw [transformProps] at hc
              simp only [he, if_false, Bool.false_eq_true, List.mem_append] at hc
              rcases hc with hc | hc
              · exact ht c hc
              · exact ih c hc

theorem generatesAlchemy_path (E : Engine) (m : Bool) (fp : Option String) (n : Node) :
    ∀ c ∈ (generatesAlchemy E m fp n).2, c.filePath = fp.getD "" := by
  cases n with
  | objectExpr props => simpa [generatesAlchemy] using transformProps_path E m fp props
  | stringLit v => simp [generatesAlchemy]
  | templateLit e q => simp [generatesAlchemy]
  | other kind singles seqs => simp [generatesAlchemy]

/-- Every engine call of a whole walk carries the walked file's path. -/
theorem walkTransform_path (E : Engine) (m : Bool) (fp : Option String) (n : Node) :
    ∀ c ∈ (walkTransform E m fp n).2, c.filePath = fp.getD "" := by
  intro c hc
  rw [walkTransform_calls] at hc
  simp only [List.mem_flatten, List.mem_map] at hc
  obtain ⟨l, ⟨v, _, hv⟩, hcl⟩ := hc
  exact generatesAlchemy_path E m fp v c (hv ▸ hcl)

/-! ## C7 — conditional-template handling -/

/-- C7: for a template-literal value embedding a ternary, the consequent
and alternate string segments are transformed by two independent engine
calls, each replaced only when its engine result is non-empty, and the
ternary's condition (`test`) is never modified; a template-literal value
with no ternary has its single static segment transformed directly. -/
theorem c7_conditional_template (f : EngineCall → String) (keyName tst cons alt : String)
    (restExprs : List CondE) (quasis : List String) (m : Bool) (fp : Option String)
    (pseudo : String) (q : String) (restQuasis : List String) :
    (transformTemplateLiteral (pureEngine f) keyName
        (.templateLit (⟨tst, cons, alt⟩ :: restExprs) quasis) m fp pseudo =
      (.templateLit
        (⟨tst,
          (if f ⟨keyName, jsonStringify (doubleToSingleQuotes cons), m, fp.getD "", pseudo⟩ ≠ ""
           then f ⟨keyName, jsonStringify (doubleToSingleQuotes cons), m, fp.getD "", pseudo⟩
           else cons),
          (if f ⟨keyName, jsonStringify (doubleToSingleQuotes alt), m, fp.getD "", pseudo⟩ ≠ ""
           then f ⟨keyName, jsonStringify (doubleToSingleQuotes alt), m, fp.getD "", pseudo⟩
           else alt)⟩ :: restExprs) quasis,
       [⟨keyName, jsonStringify (doubleToSingleQuotes cons), m, fp.getD "", pseudo⟩,
        ⟨keyName, jsonStringify (doubleToSingleQuotes alt), m, fp.getD "", pseudo⟩],
       false)) ∧
    (transformTemplateLiteral (pureEngine f) keyName
        (.templateLit [] (q :: restQuasis)) m fp pseudo =
      (.templateLit []
        ((if f ⟨keyName, jsonStringify (doubleToSingleQuotes q), m, fp.getD "", pseudo⟩ ≠ ""
          then f ⟨keyName, jsonStringify (doubleToSingleQuotes q), m, fp.getD "", pseudo⟩
          else q) :: restQuasis),
       [⟨keyName, jsonStringify (doubleToSingleQuotes q), m, fp.getD "", pseudo⟩],
       false)) :=
  ⟨rfl, rfl⟩

/-! ## C6 — engine argument composition and in-place substitution -/

/-- C6: a string-literal property is sent to the engine as
`(propertyName, JSON-quoted value with double quotes turned single,
module flag, file path, pseudo-group)` — pseudo-group `""` at top level
and the enclosing key one level down — and the literal is replaced in
place exactly when the engine result is non-empty; instantiated on the
spec's scenario `{ bgd: "red", Hover: { color: "blue" } }` with the mock
engine `f(prop, val, ...) = prop ++ "_" ++ val`. -/
theorem c6_engine_arguments (f : EngineCall → String) (m : Bool) (fp : Option String)
    (pre post : List (PKey × Node)) (k s ok nk ns : String) :
    (generatesAlchemy (pureEngine f) m fp
        (.objectExpr (pre ++ (PKey.ident k, Node.stringLit s) :: post)) =
      (.objectExpr ((transformProps (pureEngine f) m fp pre).1 ++
          (PKey.ident k, Node.stringLit
            (if f ⟨k, jsonStringify (doubleToSingleQuotes s), m, fp.getD "", ""⟩ ≠ ""
             then f ⟨k, jsonStringify (doubleToSingleQuotes s), m, fp.getD "", ""⟩
             else s)) :: (transformProps (pureEngine f) m fp post).1),
       (transformProps (pureEngine f) m fp pre).2.1 ++
         ⟨k, jsonStringify (doubleToSingleQuotes s), m, fp.getD "", ""⟩ ::
           (transformProps (pureEngine f) m fp post).2.1)) ∧
    (transformNestedProp (pureEngine f) m fp ok (PKey.ident nk, Node.stringLit ns) =
      ((PKey.ident nk, Node.stringLit
          (if f ⟨nk, jsonStringify (doubleToSingleQuotes ns), m, fp.getD "", ok⟩ ≠ ""
           then f ⟨nk, jsonStringify (doubleToSingleQuotes ns), m, fp.getD "", ok⟩
           else ns)),
       [⟨nk, jsonStringify (doubleToSingleQuotes ns), m, fp.getD "", ok⟩], false)) ∧
    (walkTransform (pureEngine (fun c => c.propName ++ "_" ++ c.value)) false (some "src/app.js")
        (.objectExpr [(.ident "bgd", .stringLit "red"),
          (.ident "Hover", .objectExpr [(.ident "color", .stringLit "blue")])]) =
      (.objectExpr [(.ident "bgd", .stringLit "bgd_\"red\""),
          (.ident "Hover", .objectExpr [(.ident "color", .stringLit "color_\"blue\"")])],
       [⟨"bgd", "\"red\"", false, "src/app.js", ""⟩,
        ⟨"color", "\"blue\"", false, "src/app.js", "Hover"⟩])) := by
  refine ⟨?_, rfl, rfl⟩
  simp [generatesAlchemy, transformProps_pure_append, transformProps, pureEngine]

/-! ## C5 — nesting depth -/

/-- C5 counterexample: in the style block
`{ A: { B: { c: "x" } } }` the string literal `"x"` sits at depth two; the
claim requires it to be transformed (the mock engine here returns the
non-empty token `"c!"` for it), but the transformer performs no engine
call at all and returns the block unchanged — nesting is handled exactly
one level deep, not recursively. -/
theorem c5_counterexample :
    (walkTransform (pureEngine (fun c => c.propName ++ "!")) false none
        (.objectExpr [(.ident "A",
          .objectExpr [(.ident "B",
            .objectExpr [(.ident "c", .stringLit "x")])])]) =
      (.objectExpr [(.ident "A",
          .objectExpr [(.ident "B",
            .objectExpr [(.ident "c", .stringLit "x")])])], [])) ∧
    (fun c : EngineCall => c.propName ++ "!")
        ⟨"c", jsonStringify (doubleToSingleQuotes "x"), false, "", "B"⟩ ≠ "" :=
  ⟨rfl, by decide⟩

/-- C5 (amended): the transformer recurses exactly one level into
object-literal values — a string-literal property nested one level deep is
transformed with the enclosing key as its pseudo-group, while a property
of the nested object whose value is itself an object literal (depth two or
more) is left untouched and triggers no engine call. -/
theorem c5_one_level_nesting (f : EngineCall → String) (m : Bool) (fp : Option String)
    (ok nk ns : String) (nkey : PKey) (nested : List (PKey × Node)) :
    (transformNestedProp (pureEngine f) m fp ok (PKey.ident nk, Node.stringLit ns) =
      ((PKey.ident nk, Node.stringLit
          (if f ⟨nk, jsonStringify (doubleToSingleQuotes ns), m, fp.getD "", ok⟩ ≠ ""
           then f ⟨nk, jsonStringify (doubleToSingleQuotes ns), m, fp.getD "", ok⟩
           else ns)),
       [⟨nk, jsonStringify (doubleToSingleQuotes ns), m, fp.getD "", ok⟩], false)) ∧
    (transformNestedProp (pureEngine f) m fp ok (nkey, Node.objectExpr nested) =
      ((nkey, Node.objectExpr nested), [], false)) :=
  ⟨rfl, rfl⟩

/-! ## C4 — failure isolation -/

/-- C4 counterexample: on `{ a: "x", b: "y" }` with an engine that throws
for property `a` and returns the non-empty token `b!` for property `b`,
the claim requires the sibling `b` to be transformed; instead the single
`try`/`catch` wrapping the whole loop of `generatesAlchemy` aborts it: the
engine is invoked once (for `a` only), and `b` keeps its untransformed
value `"y"`. -/
theorem c4_counterexample :
    generatesAlchemy throwingEngineA false none
        (.objectExpr [(.ident "a", .stringLit "x"), (.ident "b", .stringLit "y")]) =
      (.objectExpr [(.ident "a", .stringLit "x"), (.ident "b", .stringLit "y")],
       [⟨"a", "\"x\"", false, "", ""⟩]) ∧
    throwingEngineA ⟨"b", "\"y\"", false, "", ""⟩ = .ok "b!" ∧
    ("b!" : String) ≠ "y" :=
  ⟨rfl, rfl, by decide⟩

/-- The top-level property loop processes an appended suffix after a
prefix that lets no exception escape. -/
theorem transformProps_append_of_noThrow (E : Engine) (m : Bool) (fp : Option String)
    (l1 l2 : List (PKey × Node)) (h : (transformProps E m fp l1).2.2 = false) :
    transformProps E m fp (l1 ++ l2) =
      ((transformProps E m fp l1).1 ++ (transformProps E m fp l2).1,
       (transformProps E m fp l1).2.1 ++ (transformProps E m fp l2).2.1,
       (transformProps E m fp l2).2.2) := by
  induction l1 with
  | nil => simp [transformProps]
  | cons p rest ih =>
      obtain ⟨pk, pv⟩ := p
      cases pk with
      | nonIdent =>
          simp only [transformProps] at h
          simp only [List.cons_append, transformProps, List.append_eq, ih h]
      | ident key2 =>
        cases pv with
        | stringLit s2 =>
            cases hE : E ⟨key2, jsonStringify (doubleToSingleQuotes s2), m, fp.getD "", ""⟩ with
            | thrown =>
                simp only [transformProps, hE] at h
                exact Bool.noConfusion h
            | ok t =>
                simp only [transformProps, hE] at h
                simp only [List.cons_append, transformProps, hE, List.append_eq, ih h]
        | objectExpr nested =>
            by_cases he : (transformNestedProps E m fp key2 nested).2.2
            · simp only [transformProps, he, if_true] at h
              exact Bool.noConfusion h
            · simp only [transformProps, he, if_false, Bool.false_eq_true] at h
              simp only [List.cons_append, transformProps, he, if_false, Bool.false_eq_true,
                List.append_eq, ih h]
              simp
        | templateLit e q =>
            by_cases he : (transformTemplateLiteral E key2 (.templateLit e q) m fp "").2.2
            · simp only [transformProps, he, if_true] at h
              exact Bool.noConfusion h
            · simp only [transformProps, he, if_false, Bool.false_eq_true] at h
              simp only [List.cons_append, transformProps, he, if_false, Bool.false_eq_true,
                List.append_eq, ih h]
              simp
        | other kind singles seqs =>
            by_cases he : (transformTemplateLiteral E key2 (.other kind singles seqs) m fp "").2.2
            · simp only [transformProps, he, if_true] at h
              exact Bool.noConfusion h
            · simp only [transformProps, he, if_false, Bool.false_eq_true] at h
              simp only [List.cons_append, transformProps, he, if_false, Bool.false_eq_true,
                List.append_eq, ih h]
              simp

/-- C4 (amended): an engine exception while transforming one property is
caught and logged at the enclosing object-literal granularity: the failing
property's value is left unmodified and properties transformed before it
keep their transformations, but the properties after it in the same object
literal are left untransformed; the walk itself is unaffected — the tree
walker still visits exactly the same nodes whatever the engine throws, so
other call sites in the same file are still transformed. -/
theorem c4_failure_stops_loop (E : Engine) (m : Bool) (fp : Option String)
    (pre post : List (PKey × Node)) (k s : String)
    (hpre : (transformProps E m fp pre).2.2 = false)
    (hthrow : E ⟨k, jsonStringify (doubleToSingleQuotes s), m, fp.getD "", ""⟩ = .thrown) :
    generatesAlchemy E m fp (.objectExpr (pre ++ (PKey.ident k, Node.stringLit s) :: post)) =
      (.objectExpr ((transformProps E m fp pre).1 ++ (PKey.ident k, Node.stringLit s) :: post),
       (transformProps E m fp pre).2.1 ++
         [⟨k, jsonStringify (doubleToSingleQuotes s), m, fp.getD "", ""⟩]) ∧
    (∀ (E2 : Engine) (m2 : Bool) (fp2 : Option String) (stack : List Node),
      (walkThroughOutAst E m fp stack).1 = (walkThroughOutAst E2 m2 fp2 stack).1) := by
  constructor
  · have key : transformProps E m fp ((PKey.ident k, Node.stringLit s) :: post) =
        ((PKey.ident k, Node.stringLit s) :: post,
         [⟨k, jsonStringify (doubleToSingleQuotes s), m, fp.getD "", ""⟩], true) := by
      simp [transformProps, hthrow]
    simp [generatesAlchemy, transformProps_append_of_noThrow E m fp pre _ hpre, key]
  · intro E2 m2 fp2 stack
    rw [walkThroughOutAst_visits, walkThroughOutAst_visits]

/-- C4 witness: on `{ p: "q", a: "x", b: "y" }` the engine
`throwingEngineA` transforms `p`, throws on `a`, and `b` is left
untouched while the walk still visits the same nodes. -/
theorem c4_failure_stops_loop_witness :
    ((transformProps throwingEngineA false none
        [(PKey.ident "p", Node.stringLit "q")]).2.2 = false) ∧
    (throwingEngineA ⟨"a", jsonStringify (doubleToSingleQuotes "x"), false,
        (none : Option String).getD "", ""⟩ = .thrown) ∧
    (generatesAlchemy throwingEngineA false none
        (.objectExpr ([(PKey.ident "p", Node.stringLit "q")] ++
          (PKey.ident "a", Node.stringLit "x") :: [(PKey.ident "b", Node.stringLit "y")])) =
      (.objectExpr
        ((transformProps throwingEngineA false none [(PKey.ident "p", Node.stringLit "q")]).1 ++
          (PKey.ident "a", Node.stringLit "x") :: [(PKey.ident "b", Node.stringLit "y")]),
       (transformProps throwingEngineA false none [(PKey.ident "p", Node.stringLit "q")]).2.1 ++
         [⟨"a", jsonStringify (doubleToSingleQuotes "x"), false,
           (none : Option String).getD "", ""⟩]) ∧
     (∀ (E2 : Engine) (m2 : Bool) (fp2 : Option String) (stack : List Node),
       (walkThroughOutAst throwingEngineA false none stack).1 =
         (walkThroughOutAst E2 m2 fp2 stack).1)) :=
  ⟨rfl, rfl,
    c4_failure_stops_loop throwingEngineA false none
      [(PKey.ident "p", Node.stringLit "q")] [(PKey.ident "b", Node.stringLit "y")]
      "a" "x" rfl rfl⟩

/-! ## C8 — tree-walker coverage -/

/-- C8: starting from any root, the explicit-stack loop visits exactly
the nodes reachable through named-child and sequence-child edges — each
position exactly once, since `reachableList` enumerates every reachable
position of the tree once, in preorder — and it runs `generatesAlchemy`
on every visited node: its engine calls are precisely the concatenation
of the calls `generatesAlchemy` makes on each visited node.  The
sequence-valued children of an object-literal node are never pushed onto
the walk: an `ObjectExpression` contributes no stack children and is a
leaf of the reachability relation. -/
theorem c8_tree_walker_coverage (E : Engine) (m : Bool) (fp : Option String) (root : Node) :
    (walkThroughOutAst E m fp [root]).1 = reachableList root ∧
    (walkThroughOutAst E m fp [root]).2 =
      ((reachableList root).map (fun v => (generatesAlchemy E m fp v).2)).flatten ∧
    (∀ props : List (PKey × Node), nodeChildren (.objectExpr props) = []) ∧
    (∀ props : List (PKey × Node), reachableList (.objectExpr props) = [.objectExpr props]) := by
  refine ⟨?_, ?_, fun props => rfl, fun props => rfl⟩
  · rw [walkThroughOutAst_visits]
    simp [reachableEach]
  · rw [walkThroughOutAst_calls]
    simp [reachableEach]

/-! ## C2 — fingerprint normalization -/

/-- C2: the fingerprint is the deterministic digest
`generatesHashingHex` of the callback body's textual form with all
whitespace removed, so any two bodies whose textual forms agree after
whitespace removal receive identical fingerprints. -/
theorem c2_fingerprint_normalization (b1 b2 : Node)
    (h : removeWhitespace (stringifyNode b1) = removeWhitespace (stringifyNode b2)) :
    fingerprint b1 = fingerprint b2 ∧
    fingerprint b1 = generatesHashingHex (removeWhitespace (stringifyNode b1)) true false := by
  unfold fingerprint
  rw [h]
  exact ⟨rfl, rfl⟩

/-- C2 witness: the bodies `StringLiteral "a b"` and `StringLiteral "ab"`
differ only by whitespace inside the payload, and hash identically. -/
theorem c2_fingerprint_normalization_witness :
    removeWhitespace (stringifyNode (.stringLit "a b")) =
      removeWhitespace (stringifyNode (.stringLit "ab")) ∧
    fingerprint (.stringLit "a b") = fingerprint (.stringLit "ab") :=
  ⟨by decide, (c2_fingerprint_normalization (.stringLit "a b") (.stringLit "ab") (by decide)).1⟩

/-! ## C9 — the exclusion filter -/

theorem strContains_slash_of_dotSlash (item : String)
    (h : strContains item "./" = true) : strContains item "/" = true := by
  unfold strContains at h ⊢
  rw [decide_eq_true_iff] at h ⊢
  exact List.IsInfix.trans (by decide) h

/-- C9: an exclusion entry with no path separator and no dot expands to
`<name>/**`, every other entry is used verbatim; with
`exclude = ["tests"]` the path `tests/foo.js` is skipped while
`src/tests.js` is processed; and a path starting with `.` is never
processed. -/
theorem c9_exclusion_filter :
    (∀ item : String, strContains item "/" = false → strContains item "." = false →
      expandExcludeItem item = item ++ "/**") ∧
    (∀ item : String, strContains item "/" = true ∨ strContains item "." = true →
      expandExcludeItem item = item) ∧
    fileProcessed ["tests"] "tests/foo.js" = false ∧
    fileProcessed ["tests"] "src/tests.js" = true ∧
    (∀ (exclude : List String) (path : String), startsWithDot path = true →
      fileProcessed exclude path = false) := by
  refine ⟨?_, ?_, by decide, by decide, ?_⟩
  · intro item h1 h2
    have h3 : strContains item "./" = false := by
      cases hc : strContains item "./" with
      | false => rfl
      | true => rw [strContains_slash_of_dotSlash item hc] at h1; exact Bool.noConfusion h1
    simp [expandExcludeItem, h1, h2, h3]
  · intro item h
    rcases h with h | h <;> simp [expandExcludeItem, h]
  · intro exclude path h
    simp [fileProcessed, h]

/-- C9 witness: the folder entry `tests` expands, the verbatim entry
`src/tests.js` does not, and the hidden path `.env` is never processed. -/
theorem c9_exclusion_filter_witness :
    expandExcludeItem "tests" = "tests" ++ "/**" ∧
    expandExcludeItem "src/tests.js" = "src/tests.js" ∧
    fileProcessed [] ".env" = false :=
  ⟨c9_exclusion_filter.1 "tests" (by decide) (by decide),
   c9_exclusion_filter.2.1 "src/tests.js" (Or.inl (by decide)),
   c9_exclusion_filter.2.2.2.2 [] ".env" (by decide)⟩

/-! ## Lemmas about the visitor and the transform cache -/

/-- Splitting the eligibility conjunction. -/
theorem eligible_parts (resolve : String → String) (ex : List String) (s : Site)
    (cb : Callback) (hcb : s.callbackArg = some cb) (h : eligible resolve ex s = true) :
    isExcluded resolve ex s = false ∧ s.calleeIsCraftingStyles = true ∧
      cbIsFunction cb = true := by
  unfold eligible at h
  rw [hcb] at h
  rw [Bool.and_eq_true, Bool.and_eq_true, Bool.not_eq_true'] at h
  exact ⟨h.1.1, h.1.2, h.2⟩

/-- A site failing any gate leaves the state, the site and the call log
untouched. -/
theorem visitCallExpression_not_eligible (E : Engine) (resolve : String → String)
    (ex : List String) (m : Bool) (st : AlchemySt) (s : Site)
    (h : eligible resolve ex s = false) :
    visitCallExpression E resolve (.config ex m) st s = (st, s, []) := by
  unfold eligible at h
  unfold visitCallExpression
  by_cases h1 : isExcluded resolve ex s
  · simp [h1]
  · simp only [h1, Bool.not_false, Bool.true_and] at h
    by_cases h2 : s.calleeIsCraftingStyles
    · simp only [h2, Bool.true_and] at h
      cases hcb : s.callbackArg with
      | none => simp [h1, h2, hcb]
      | some cb =>
          rw [hcb] at h
          have h3 : cbIsFunction cb = false := h
          simp [h1, h2, hcb, h3]
    · simp [h1, h2]

/-- An eligible site whose fingerprint is new: the body is walked in
place, a deep copy of the result is cached, the fingerprint is recorded. -/
theorem visitCallExpression_miss (E : Engine) (resolve : String → String)
    (ex : List String) (m : Bool) (st : AlchemySt) (s : Site) (cb : Callback)
    (hcb : s.callbackArg = some cb) (helig : eligible resolve ex s = true)
    (hfp : fingerprint cb.body ∉ st.usedObjects) :
    visitCallExpression E resolve (.config ex m) st s =
      (⟨st.usedObjects ++ [fingerprint cb.body],
        (fingerprint cb.body, (walkTransform E m s.filename cb.body).1) :: st.transformedNodes⟩,
       { s with callbackArg := some { cb with body := (walkTransform E m s.filename cb.body).1 } },
       (walkTransform E m s.filename cb.body).2) := by
  obtain ⟨hx, hc, hf⟩ := eligible_parts resolve ex s cb hcb helig
  unfold visitCallExpression
  simp [hx, hc, hcb, hf, hfp, cloneDeep]

/-- An eligible site whose fingerprint was seen and whose cache entry
exists: nothing is walked, no engine call happens, the callback body is
replaced by a deep copy of the cached body. -/
theorem visitCallExpression_hit (E : Engine) (resolve : String → String)
    (ex : List String) (m : Bool) (st : AlchemySt) (s : Site) (cb : Callback) (b : Node)
    (hcb : s.callbackArg = some cb) (helig : eligible resolve ex s = true)
    (hfp : fingerprint cb.body ∈ st.usedObjects)
    (hlook : cacheLookup st.transformedNodes (fingerprint cb.body) = some b) :
    visitCallExpression E resolve (.config ex m) st s =
      (st, { s with callbackArg := some { cb with body := cloneDeep b } }, []) := by
  obtain ⟨hx, hc, hf⟩ := eligible_parts resolve ex s cb hcb helig
  unfold visitCallExpression
  simp [hx, hc, hcb, hf, hfp, hlook]

/-- The defensive branch (seen fingerprint, no cache entry): treated like
a miss. -/
theorem visitCallExpression_defensive (E : Engine) (resolve : String → String)
    (ex : List String) (m : Bool) (st : AlchemySt) (s : Site) (cb : Callback)
    (hcb : s.callbackArg = some cb) (helig : eligible resolve ex s = true)
    (hfp : fingerprint cb.body ∈ st.usedObjects)
    (hlook : cacheLookup st.transformedNodes (fingerprint cb.body) = none) :
    visitCallExpression E resolve (.config ex m) st s =
      (⟨st.usedObjects ++ [fingerprint cb.body],
        (fingerprint cb.body, (walkTransform E m s.filename cb.body).1) :: st.transformedNodes⟩,
       { s with callbackArg := some { cb with body := (walkTransform E m s.filename cb.body).1 } },
       (walkTransform E m s.filename cb.body).2) := by
  obtain ⟨hx, hc, hf⟩ := eligible_parts resolve ex s cb hcb helig
  unfold visitCallExpression
  simp [hx, hc, hcb, hf, hfp, hlook, cloneDeep]

/-- The plugin state invariant: a fingerprint is recorded in
`usedObjects` exactly when `transformedNodes` holds an entry for it.  It
holds of the initial empty state and is preserved by every visit, which
is why the defensive branch never runs in a real process. -/
def stInv (st : AlchemySt) : Prop :=
  ∀ h, h ∈ st.usedObjects ↔ (cacheLookup st.transformedNodes h).isSome

theorem stInv_emptySt : stInv emptySt := by
  intro h
  simp [emptySt, cacheLookup]

theorem visitCallExpression_stInv (E : Engine) (resolve : String → String)
    (pr : ParseResult) (st : AlchemySt) (s : Site) (hinv : stInv st) :
    stInv (visitCallExpression E resolve pr st s).1 := by
  cases pr with
  | emptyArr => simpa [visitCallExpression] using hinv
  | config ex m =>
    by_cases helig : eligible resolve ex s = true
    · cases hcb : s.callbackArg with
      | none =>
          exfalso
          unfold eligible at helig
          rw [hcb] at helig
          simp at helig
      | some cb =>
          by_cases hfp : fingerprint cb.body ∈ st.usedObjects
          · cases hlook : cacheLookup st.transformedNodes (fingerprint cb.body) with
            | some b =>
                rw [visitCallExpression_hit E resolve ex m st s cb b hcb helig hfp hlook]
                exact hinv
            | none =>
                rw [visitCallExpression_defensive E resolve ex m st s cb hcb helig hfp hlook]
                intro h2
                simp only [List.mem_append, List.mem_singleton, cacheLookup]
                by_cases he : fingerprint cb.body = h2
                · simp [he, hinv, cacheLookup]
                · simp [he, Ne.symm he, hinv h2, cacheLookup]
          · rw [visitCallExpression_miss E resolve ex m st s cb hcb helig hfp]
            intro h2
            simp only [List.mem_append, List.mem_singleton, cacheLookup]
            by_cases he : fingerprint cb.body = h2
            · simp [he, cacheLookup]
            · simp [he, Ne.symm he, hinv h2, cacheLookup]
    · rw [visitCallExpression_not_eligible E resolve ex m st s (by simpa using helig)]
      exact hinv

theorem visitCallExpression_used_mono (E : Engine) (resolve : String → String)
    (pr : ParseResult) (st : AlchemySt) (s : Site) (h : String)
    (hm : h ∈ st.usedObjects) :
    h ∈ (visitCallExpression E resolve pr st s).1.usedObjects := by
  cases pr with
  | emptyArr => simpa [visitCallExpression] using hm
  | config ex m =>
    by_cases helig : eligible resolve ex s = true
    · cases hcb : s.callbackArg with
      | none =>
          exfalso
          unfold eligible at helig
          rw [hcb] at helig
          simp at helig
      | some cb =>
          by_cases hfp : fingerprint cb.body ∈ st.usedObjects
          · cases hlook : cacheLookup st.transformedNodes (fingerprint cb.body) with
            | some b =>
                rw [visitCallExpression_hit E resolve ex m st s cb b hcb helig hfp hlook]
                exact hm
            | none =>
                rw [visitCallExpression_defensive E resolve ex m st s cb hcb helig hfp hlook]
                simp [hm]
          · rw [visitCallExpression_miss E resolve ex m st s cb hcb helig hfp]
            simp [hm]
    · rw [visitCallExpression_not_eligible E resolve ex m st s (by simpa using helig)]
      exact hm

/-- An existing cache entry survives any later visit unchanged. -/
theorem visitCallExpression_cache_stable (E : Engine) (resolve : String → String)
    (pr : ParseResult) (st : AlchemySt) (s : Site) (h : String) (b : Node)
    (hinv : stInv st) (hl : cacheLookup st.transformedNodes h = some b) :
    cacheLookup (visitCallExpression E resolve pr st s).1.transformedNodes h = some b := by
  cases pr with
  | emptyArr => simpa [visitCallExpression] using hl
  | config ex m =>
    by_cases helig : eligible resolve ex s = true
    · cases hcb : s.callbackArg with
      | none =>
          exfalso
          unfold eligible at helig
          rw [hcb] at helig
          simp at helig
      | some cb =>
          by_cases hfp : fingerprint cb.body ∈ st.usedObjects
          · cases hlook : cacheLookup st.transformedNodes (fingerprint cb.body) with
            | some b2 =>
                rw [visitCallExpression_hit E resolve ex m st s cb b2 hcb helig hfp hlook]
                exact hl
            | none =>
                rw [visitCallExpression_defensive E resolve ex m st s cb hcb helig hfp hlook]
                have hne : fingerprint cb.body ≠ h := by
                  intro he
                  rw [he, hl] at hlook
                  exact Option.noConfusion hlook
                simp [cacheLookup, hne, hl]
          · rw [visitCallExpression_miss E resolve ex m st s cb hcb helig hfp]
            have hne : fingerprint cb.body ≠ h := by
              intro he
              apply hfp
              rw [he]
              exact (hinv h).mpr (by simp [hl])
            simp [cacheLookup, hne, hl]
    · rw [visitCallExpression_not_eligible E resolve ex m st s (by simpa using helig)]
      exact hl

/-- Fingerprint membership after one visit. -/
theorem visitCallExpression_used_mem (E : Engine) (resolve : String → String)
    (ex : List String) (m : Bool) (st : AlchemySt) (s : Site) (h : String) :
    h ∈ (visitCallExpression E resolve (.config ex m) st s).1.usedObjects ↔
      h ∈ st.usedObjects ∨ (∃ cb, s.callbackArg = some cb ∧ eligible resolve ex s = true ∧
        fingerprint cb.body = h) := by
  by_cases helig : eligible resolve ex s = true
  · cases hcb : s.callbackArg with
    | none =>
        exfalso
        unfold eligible at helig
        rw [hcb] at helig
        simp at helig
    | some cb =>
        by_cases hfp : fingerprint cb.body ∈ st.usedObjects
        · cases hlook : cacheLookup st.transformedNodes (fingerprint cb.body) with
          | some b =>
              rw [visitCallExpression_hit E resolve ex m st s cb b hcb helig hfp hlook]
              constructor
              · intro hm
                exact Or.inl hm
              · rintro (hm | ⟨cb2, hcb2, _, hfp2⟩)
                · exact hm
                · cases hcb2
                  exact hfp2 ▸ hfp
          | none =>
              rw [visitCallExpression_defensive E resolve ex m st s cb hcb helig hfp hlook]
              simp only [List.mem_append, List.mem_singleton]
              constructor
              · rintro (hm | he)
                · exact Or.inl hm
                · exact Or.inr ⟨cb, rfl, helig, he.symm⟩
              · rintro (hm | ⟨cb2, hcb2, _, hfp2⟩)
                · exact Or.inl hm
                · cases hcb2
                  exact Or.inr hfp2.symm
        · rw [visitCallExpression_miss E resolve ex m st s cb hcb helig hfp]
          simp only [List.mem_append, List.mem_singleton]
          constructor
          · rintro (hm | he)
            · exact Or.inl hm
            · exact Or.inr ⟨cb, rfl, helig, he.symm⟩
          · rintro (hm | ⟨cb2, hcb2, _, hfp2⟩)
            · exact Or.inl hm
            · cases hcb2
              exact Or.inr hfp2.symm
  · rw [visitCallExpression_not_eligible E resolve ex m st s (by simpa using helig)]
    constructor
    · intro hm
      exact Or.inl hm
    · rintro (hm | ⟨cb2, _, he2, _⟩)
      · exact hm
      · exact absurd he2 helig

/-! The same facts extended over a whole list of sites. -/

theorem processCallSites_stInv (E : Engine) (resolve : String → String)
    (pr : ParseResult) (st : AlchemySt) (sites : List Site) (hinv : stInv st) :
    stInv (processCallSites E resolve pr st sites).1 := by
  induction sites generalizing st with
  | nil => simpa [processCallSites]
  | cons s ss ih =>
      rw [processCallSites]
      exact ih _ (visitCallExpression_stInv E resolve pr st s hinv)

theorem processCallSites_used_mono (E : Engine) (resolve : String → String)
    (pr : ParseResult) (st : AlchemySt) (sites : List Site) (h : String)
    (hm : h ∈ st.usedObjects) :
    h ∈ (processCallSites E resolve pr st sites).1.usedObjects := by
  induction sites generalizing st with
  | nil => simpa [processCallSites]
  | cons s ss ih =>
      rw [processCallSites]
      exact ih _ (visitCallExpression_used_mono E resolve pr st s h hm)

theorem processCallSites_cache_stable (E : Engine) (resolve : String → String)
    (pr : ParseResult) (st : AlchemySt) (sites : List Site) (h : String) (b : Node)
    (hinv : stInv st) (hl : cacheLookup st.transformedNodes h = some b) :
    cacheLookup (processCallSites E resolve pr st sites).1.transformedNodes h = some b := by
  induction sites generalizing st with
  | nil => simpa [processCallSites]
  | cons s ss ih =>
      rw [processCallSites]
      exact ih _ (visitCallExpression_stInv E resolve pr st s hinv)
        (visitCallExpression_cache_stable E resolve pr st s h b hinv hl)

theorem processCallSites_used_mem (E : Engine) (resolve : String → String)
    (ex : List String) (m : Bool) (st : AlchemySt) (sites : List Site) (h : String) :
    h ∈ (processCallSites E resolve (.config ex m) st sites).1.usedObjects ↔
      h ∈ st.usedObjects ∨ ∃ s ∈ sites, ∃ cb, s.callbackArg = some cb ∧
        eligible resolve ex s = true ∧ fingerprint cb.body = h := by
  induction sites generalizing st with
  | nil => simp [processCallSites]
  | cons s ss ih =>
      rw [processCallSites]
      simp only []
      rw [ih, visitCallExpression_used_mem]
      constructor
      · rintro ((hm | he) | ⟨s2, hs2, hrest⟩)
        · exact Or.inl hm
        · exact Or.inr ⟨s, List.mem_cons_self s ss, he⟩
        · exact Or.inr ⟨s2, List.mem_cons_of_mem s hs2, hrest⟩
      · rintro (hm | ⟨s2, hs2, hrest⟩)
        · exact Or.inl (Or.inl hm)
        · rcases List.mem_cons.mp hs2 with he | hs2'
          · exact Or.inl (Or.inr (he ▸ hrest))
          · exact Or.inr ⟨s2, hs2', hrest⟩

/-! ## C1 — at-most-once transformation per fingerprint -/

/-- C1: in a run `pre ++ [s1] ++ mid ++ [s2]` where `s1` is the first
eligible occurrence of its fingerprint and `s2` any later occurrence of
the same fingerprint, the engine is invoked exactly while processing
`s1` — the calls of one walk of its body — and `s2` triggers no engine
call at all: its callback body is replaced by a deep copy of the cached
transformed body.  With a non-throwing engine the number of calls of that
single walk is the body's transformable-unit count (each string-literal
property one call, a ternary template two, a static template one), which
for a flat all-string-literal block is exactly its number of properties. -/
theorem c1_at_most_once_per_fingerprint (E : Engine) (f : EngineCall → String)
    (resolve : String → String) (ex : List String) (m : Bool)
    (pre mid : List Site) (s1 s2 : Site) (cb1 cb2 : Callback)
    (hcb1 : s1.callbackArg = some cb1) (hcb2 : s2.callbackArg = some cb2)
    (he1 : eligible resolve ex s1 = true) (he2 : eligible resolve ex s2 = true)
    (hfp : fingerprint cb2.body = fingerprint cb1.body)
    (hfresh : ∀ s ∈ pre, ∀ cb, s.callbackArg = some cb →
      eligible resolve ex s = true → fingerprint cb.body ≠ fingerprint cb1.body) :
    (visitCallExpression E resolve (.config ex m)
        (processCallSites E resolve (.config ex m) emptySt pre).1 s1 =
      (⟨(processCallSites E resolve (.config ex m) emptySt pre).1.usedObjects ++
          [fingerprint cb1.body],
        (fingerprint cb1.body, (walkTransform E m s1.filename cb1.body).1) ::
          (processCallSites E resolve (.config ex m) emptySt pre).1.transformedNodes⟩,
       { s1 with
         callbackArg := some { cb1 with body := (walkTransform E m s1.filename cb1.body).1 } },
       (walkTransform E m s1.filename cb1.body).2)) ∧
    (visitCallExpression E resolve (.config ex m)
        (processCallSites E resolve (.config ex m)
          (visitCallExpression E resolve (.config ex m)
            (processCallSites E resolve (.config ex m) emptySt pre).1 s1).1 mid).1 s2 =
      ((processCallSites E resolve (.config ex m)
          (visitCallExpression E resolve (.config ex m)
            (processCallSites E resolve (.config ex m) emptySt pre).1 s1).1 mid).1,
       { s2 with
         callbackArg := some { cb2 with body := cloneDeep (walkTransform E m s1.filename cb1.body).1 } },
       [])) ∧
    (((walkTransform (pureEngine f) m s1.filename cb1.body).2).length =
      nodeCallCount cb1.body) ∧
    (∀ props : List (PKey × Node),
      (∀ p ∈ props, ∃ k v, p = (PKey.ident k, Node.stringLit v)) →
      nodeCallCount (.objectExpr props) = props.length) := by
  have hinv1 : stInv (processCallSites E resolve (.config ex m) emptySt pre).1 :=
    processCallSites_stInv E resolve _ emptySt pre stInv_emptySt
  have hfresh1 : fingerprint cb1.body ∉
      (processCallSites E resolve (.config ex m) emptySt pre).1.usedObjects := by
    rw [processCallSites_used_mem]
    rintro (hm | ⟨s, hs, cb, hcbs, hes, hfps⟩)
    · simp [emptySt] at hm
    · exact hfresh s hs cb hcbs hes hfps
  have h1 := visitCallExpression_miss E resolve ex m
    (processCallSites E resolve (.config ex m) emptySt pre).1 s1 cb1 hcb1 he1 hfresh1
  refine ⟨h1, ?_, walkTransform_pure_count f m s1.filename cb1.body, ?_⟩
  · have hinv2 : stInv (visitCallExpression E resolve (.config ex m)
        (processCallSites E resolve (.config ex m) emptySt pre).1 s1).1 :=
      visitCallExpression_stInv E resolve _ _ s1 hinv1
    have hmem2 : fingerprint cb1.body ∈ (visitCallExpression E resolve (.config ex m)
        (processCallSites E resolve (.config ex m) emptySt pre).1 s1).1.usedObjects := by
      rw [h1]
      simp
    have hlook2 : cacheLookup (visitCallExpression E resolve (.config ex m)
        (processCallSites E resolve (.config ex m) emptySt pre).1 s1).1.transformedNodes
        (fingerprint cb1.body) = some (walkTransform E m s1.filename cb1.body).1 := by
      rw [h1]
      simp [cacheLookup]
    have hmem3 := processCallSites_used_mono E resolve (.config ex m) _ mid _ hmem2
    have hlook3 := processCallSites_cache_stable E resolve (.config ex m) _ mid _ _ hinv2 hlook2
    exact visitCallExpression_hit E resolve ex m _ s2 cb2 _ hcb2 he2
      (hfp ▸ hmem3) (hfp ▸ hlook3)
  · intro props hprops
    induction props with
    | nil => simp [nodeCallCount]
    | cons p rest ih =>
        obtain ⟨k, v, hp⟩ := hprops p (List.mem_cons_self p rest)
        have hrest := ih (fun q hq => hprops q (List.mem_cons_of_mem _ hq))
        subst hp
        simp only [nodeCallCount, List.map_cons, List.sum_cons] at hrest ⊢
        simp only [propCallCount, hrest, List.length_cons]
        omega

/-- C1 witness: two call sites carrying the same style-block body, one in
`b.js` (first occurrence, transformed with engine calls) and one in
`a.js` (later occurrence, replaced by a clone of the cache with no engine
call). -/
theorem c1_at_most_once_per_fingerprint_witness :
    (eligible id [] (⟨some "b.js", true,
        some ⟨.functionExpr, .objectExpr [(.ident "color", .stringLit "red")]⟩⟩ : Site) = true) ∧
    (visitCallExpression (pureEngine (fun c => c.propName ++ "_" ++ c.value)) id (.config [] false)
        (processCallSites (pureEngine (fun c => c.propName ++ "_" ++ c.value)) id
          (.config [] false) emptySt []).1
        ⟨some "b.js", true,
          some ⟨.functionExpr, .objectExpr [(.ident "color", .stringLit "red")]⟩⟩ =
      (⟨(processCallSites (pureEngine (fun c => c.propName ++ "_" ++ c.value)) id
            (.config [] false) emptySt []).1.usedObjects ++
          [fingerprint (Callback.mk .functionExpr
            (.objectExpr [(.ident "color", .stringLit "red")])).body],
        (fingerprint (Callback.mk .functionExpr
            (.objectExpr [(.ident "color", .stringLit "red")])).body,
         (walkTransform (pureEngine (fun c => c.propName ++ "_" ++ c.value)) false
           (Site.mk (some "b.js") true
             (some ⟨.functionExpr,
               .objectExpr [(.ident "color", .stringLit "red")]⟩)).filename
           (Callback.mk .functionExpr
             (.objectExpr [(.ident "color", .stringLit "red")])).body).1) ::
          (processCallSites (pureEngine (fun c => c.propName ++ "_" ++ c.value)) id
            (.config [] false) emptySt []).1.transformedNodes⟩,
       { (Site.mk (some "b.js") true
           (some ⟨.functionExpr, .objectExpr [(.ident "color", .stringLit "red")]⟩)) with
         callbackArg := some { (Callback.mk .functionExpr
             (.objectExpr [(.ident "color", .stringLit "red")])) with
           body := (walkTransform (pureEngine (fun c => c.propName ++ "_" ++ c.value)) false
             (Site.mk (some "b.js") true
               (some ⟨.functionExpr,
                 .objectExpr [(.ident "color", .stringLit "red")]⟩)).filename
             (Callback.mk .functionExpr
               (.objectExpr [(.ident "color", .stringLit "red")])).body).1 } },
       (walkTransform (pureEngine (fun c => c.propName ++ "_" ++ c.value)) false
         (Site.mk (some "b.js") true
           (some ⟨.functionExpr,
             .objectExpr [(.ident "color", .stringLit "red")]⟩)).filename
         (Callback.mk .functionExpr
           (.objectExpr [(.ident "color", .stringLit "red")])).body).2)) ∧
    (visitCallExpression (pureEngine (fun c => c.propName ++ "_" ++ c.value)) id (.config [] false)
        (processCallSites (pureEngine (fun c => c.propName ++ "_" ++ c.value)) id (.config [] false)
          (visitCallExpression (pureEngine (fun c => c.propName ++ "_" ++ c.value)) id
            (.config [] false)
            (processCallSites (pureEngine (fun c => c.propName ++ "_" ++ c.value)) id
              (.config [] false) emptySt []).1
            ⟨some "b.js", true,
              some ⟨.functionExpr, .objectExpr [(.ident "color", .stringLit "red")]⟩⟩).1 []).1
        ⟨some "a.js", true,
          some ⟨.arrowFunctionExpr, .objectExpr [(.ident "color", .stringLit "red")]⟩⟩ =
      ((processCallSites (pureEngine (fun c => c.propName ++ "_" ++ c.value)) id (.config [] false)
          (visitCallExpression (pureEngine (fun c => c.propName ++ "_" ++ c.value)) id
            (.config [] false)
            (processCallSites (pureEngine (fun c => c.propName ++ "_" ++ c.value)) id
              (.config [] false) emptySt []).1
            ⟨some "b.js", true,
              some ⟨.functionExpr, .objectExpr [(.ident "color", .stringLit "red")]⟩⟩).1 []).1,
       { (Site.mk (some "a.js") true
           (some ⟨.arrowFunctionExpr, .objectExpr [(.ident "color", .stringLit "red")]⟩)) with
         callbackArg := some { (Callback.mk .arrowFunctionExpr
             (.objectExpr [(.ident "color", .stringLit "red")])) with
           body := cloneDeep (walkTransform
             (pureEngine (fun c => c.propName ++ "_" ++ c.value)) false
             (Site.mk (some "b.js") true
               (some ⟨.functionExpr,
                 .objectExpr [(.ident "color", .stringLit "red")]⟩)).filename
             (Callback.mk .functionExpr
               (.objectExpr [(.ident "color", .stringLit "red")])).body).1 } },
       [])) := by
  refine ⟨rfl, ?_, ?_⟩
  · exact (c1_at_most_once_per_fingerprint
      (pureEngine (fun c => c.propName ++ "_" ++ c.value))
      (fun c => c.propName ++ "_" ++ c.value) id [] false [] []
      ⟨some "b.js", true,
        some ⟨.functionExpr, .objectExpr [(.ident "color", .stringLit "red")]⟩⟩
      ⟨some "a.js", true,
        some ⟨.arrowFunctionExpr, .objectExpr [(.ident "color", .stringLit "red")]⟩⟩
      ⟨.functionExpr, .objectExpr [(.ident "color", .stringLit "red")]⟩
      ⟨.arrowFunctionExpr, .objectExpr [(.ident "color", .stringLit "red")]⟩
      rfl rfl rfl rfl rfl (by simp)).1
  · exact (c1_at_most_once_per_fingerprint
      (pureEngine (fun c => c.propName ++ "_" ++ c.value))
      (fun c => c.propName ++ "_" ++ c.value) id [] false [] []
      ⟨some "b.js", true,
        some ⟨.functionExpr, .objectExpr [(.ident "color", .stringLit "red")]⟩⟩
      ⟨some "a.js", true,
        some ⟨.arrowFunctionExpr, .objectExpr [(.ident "color", .stringLit "red")]⟩⟩
      ⟨.functionExpr, .objectExpr [(.ident "color", .stringLit "red")]⟩
      ⟨.arrowFunctionExpr, .objectExpr [(.ident "color", .stringLit "red")]⟩
      rfl rfl rfl rfl rfl (by simp)).2.1

/-! ## C3 — cache pinning determinism -/

/-- C3: every engine call of the transformation of a first-encountered
fingerprint carries the file path of that first occurrence, and every
later occurrence of the same fingerprint — whatever sites sit between and
whatever its own file path is — has its callback body replaced by exactly
the body cached at the first occurrence, an expression that depends only
on the first occurrence's body and file path. -/
theorem c3_cache_pinning_determinism (E : Engine)
    (resolve : String → String) (ex : List String) (m : Bool)
    (pre : List Site) (s1 : Site) (cb1 : Callback)
    (hcb1 : s1.callbackArg = some cb1) (he1 : eligible resolve ex s1 = true)
    (hfresh : ∀ s ∈ pre, ∀ cb, s.callbackArg = some cb →
      eligible resolve ex s = true → fingerprint cb.body ≠ fingerprint cb1.body) :
    (∀ c ∈ (walkTransform E m s1.filename cb1.body).2,
      c.filePath = s1.filename.getD "") ∧
    (∀ (mid2 : List Site) (s2 : Site) (cb2 : Callback),
      s2.callbackArg = some cb2 → eligible resolve ex s2 = true →
      fingerprint cb2.body = fingerprint cb1.body →
      (visitCallExpression E resolve (.config ex m)
          (processCallSites E resolve (.config ex m)
            (visitCallExpression E resolve (.config ex m)
              (processCallSites E resolve (.config ex m) emptySt pre).1 s1).1 mid2).1
          s2).2.1 =
        { s2 with
          callbackArg := some { cb2 with body := cloneDeep (walkTransform E m s1.filename cb1.body).1 } }) := by
  refine ⟨walkTransform_path E m s1.filename cb1.body, ?_⟩
  intro mid2 s2 cb2 hcb2 he2 hfp
  have hinv1 : stInv (processCallSites E resolve (.config ex m) emptySt pre).1 :=
    processCallSites_stInv E resolve _ emptySt pre stInv_emptySt
  have hfresh1 : fingerprint cb1.body ∉
      (processCallSites E resolve (.config ex m) emptySt pre).1.usedObjects := by
    rw [processCallSites_used_mem]
    rintro (hm | ⟨s, hs, cb, hcbs, hes, hfps⟩)
    · simp [emptySt] at hm
    · exact hfresh s hs cb hcbs hes hfps
  have h1 := visitCallExpression_miss E resolve ex m
    (processCallSites E resolve (.config ex m) emptySt pre).1 s1 cb1 hcb1 he1 hfresh1
  have hinv2 : stInv (visitCallExpression E resolve (.config ex m)
      (processCallSites E resolve (.config ex m) emptySt pre).1 s1).1 :=
    visitCallExpression_stInv E resolve _ _ s1 hinv1
  have hmem2 : fingerprint cb1.body ∈ (visitCallExpression E resolve (.config ex m)
      (processCallSites E resolve (.config ex m) emptySt pre).1 s1).1.usedObjects := by
    rw [h1]
    simp
  have hlook2 : cacheLookup (visitCallExpression E resolve (.config ex m)
      (processCallSites E resolve (.config ex m) emptySt pre).1 s1).1.transformedNodes
      (fingerprint cb1.body) = some (walkTransform E m s1.filename cb1.body).1 := by
    rw [h1]
    simp [cacheLookup]
  have hmem3 := processCallSites_used_mono E resolve (.config ex m) _ mid2 _ hmem2
  have hlook3 := processCallSites_cache_stable E resolve (.config ex m) _ mid2 _ _ hinv2 hlook2
  rw [visitCallExpression_hit E resolve ex m _ s2 cb2 _ hcb2 he2 (hfp ▸ hmem3) (hfp ▸ hlook3)]

/-- C3 witness: the same style block reached from two different files
(`b.js` first, then `c.js`) yields at the second site the body generated
with the first site's path. -/
theorem c3_cache_pinning_determinism_witness :
    (∀ c ∈ (walkTransform (pureEngine (fun c => c.propName ++ "_" ++ c.value)) false
        (some "b.js") (.objectExpr [(.ident "color", .stringLit "red")])).2,
      c.filePath = (some "b.js").getD "") ∧
    (∀ (mid2 : List Site) (s2 : Site) (cb2 : Callback),
      s2.callbackArg = some cb2 → eligible id [] s2 = true →
      fingerprint cb2.body =
        fingerprint (.objectExpr [(.ident "color", .stringLit "red")]) →
      (visitCallExpression (pureEngine (fun c => c.propName ++ "_" ++ c.value)) id
          (.config [] false)
          (processCallSites (pureEngine (fun c => c.propName ++ "_" ++ c.value)) id
            (.config [] false)
            (visitCallExpression (pureEngine (fun c => c.propName ++ "_" ++ c.value)) id
              (.config [] false)
              (processCallSites (pureEngine (fun c => c.propName ++ "_" ++ c.value)) id
                (.config [] false) emptySt []).1
              ⟨some "b.js", true,
                some ⟨.functionExpr, .objectExpr [(.ident "color", .stringLit "red")]⟩⟩).1
            mid2).1 s2).2.1 =
        { s2 with
          callbackArg := some { cb2 with body := cloneDeep (walkTransform
            (pureEngine (fun c => c.propName ++ "_" ++ c.value)) false (some "b.js")
            (.objectExpr [(.ident "color", .stringLit "red")])).1 } }) :=
  c3_cache_pinning_determinism (pureEngine (fun c => c.propName ++ "_" ++ c.value))
    id [] false []
    ⟨some "b.js", true,
      some ⟨.functionExpr, .objectExpr [(.ident "color", .stringLit "red")]⟩⟩
    ⟨.functionExpr, .objectExpr [(.ident "color", .stringLit "red")]⟩
    rfl rfl (by simp)

/-! ## C10 — missing-configuration degradation -/

/-- C10: when `galadriel.json` is absent, unreadable or malformed,
`parseConfig` returns the empty array, destructuring it leaves `exclude`
and `module` undefined, the visitor's exclusion check then throws a
`TypeError` at every call site, each is swallowed by the per-call-site
catch, and no call site in any file is transformed. -/
theorem c10_missing_config_degradation (cf : ConfigFile)
    (h : cf = .absent ∨ cf = .unreadable ∨ cf = .malformed) :
    parseConfig cf = .emptyArr ∧
    ∀ (E : Engine) (resolve : String → String) (st : AlchemySt) (sites : List Site),
      processCallSites E resolve (parseConfig cf) st sites =
        (st, sites.map (fun s => (s, []))) := by
  have hp : parseConfig cf = .emptyArr := by
    rcases h with h | h | h <;> simp [h, parseConfig]
  refine ⟨hp, ?_⟩
  intro E resolve st sites
  rw [hp]
  induction sites with
  | nil => simp [processCallSites]
  | cons s ss ih => simp [processCallSites, visitCallExpression, ih]

/-- C10 witness: an absent configuration file leaves an eligible-looking
`craftingStyles` call site untransformed with no engine call. -/
theorem c10_missing_config_degradation_witness :
    parseConfig .absent = .emptyArr ∧
    processCallSites (pureEngine (fun c => c.propName)) id (parseConfig .absent) emptySt
        [⟨some "a.js", true,
          some ⟨.arrowFunctionExpr, .objectExpr [(.ident "color", .stringLit "red")]⟩⟩] =
      (emptySt,
       [(⟨some "a.js", true,
          some ⟨.arrowFunctionExpr, .objectExpr [(.ident "color", .stringLit "red")]⟩⟩, [])]) :=
  ⟨(c10_missing_config_degradation .absent (Or.inl rfl)).1,
   (c10_missing_config_degradation .absent (Or.inl rfl)).2
     (pureEngine (fun c => c.propName)) id emptySt
     [⟨some "a.js", true,
       some ⟨.arrowFunctionExpr, .objectExpr [(.ident "color", .stringLit "red")]⟩⟩]⟩

end Galadriel
